import Mathlib

/-!
Verification of the Warframe inventory application (itemtoexcel).

This file gives a shallow embedding in Lean 4 of the parts of the
TypeScript code that the specification talks about:

* the string canonicalisation `normalizeString`
  (src/server/services/warframe-market.ts),
* the in-memory storage `MemStorage` (inventory items and processing
  jobs, src/server/storage.ts),
* the market enrichment adapter (`findItemSlug`, `getItemPrices`,
  `processItemForMarket`),
* the image-ingestion pipeline `processImagesAsync` and the routes that
  drive it (src/server/routes.ts),
* the spreadsheet bridge: Excel export, Excel import
  (`loadExcelFileAsync`) and the price-threshold split
  (`splitExcelByPriceAsync`).

Modelling conventions, used consistently below:

* JavaScript numbers are modelled by `Int` where the program only ever
  stores integral values (quantities, platinum prices) and by `Rat`
  where fractional values occur (price averages).  The exact
  print/parse round trip that JavaScript guarantees for numbers
  (`parseFloat(x.toString()) === x`) is modelled by making the
  composite operation the identity on numeric spreadsheet cells.
* `async`/`await` sequencing is modelled by explicit state passing; the
  state after every storage mutation is recorded in a trace so that the
  "states a poller could observe" are exactly the members of the trace.
* `randomUUID()` is modelled by a fresh-identifier counter.
* Wall-clock timestamps (the `toLocaleTimeString()` prefix of log lines
  and the `createdAt` field) are not modelled; log entries keep only the
  message text, which no claim depends on.
-/

/-! ### JavaScript string primitives -/

/-- The whitespace characters matched by the JavaScript regex class
`\s` (restricted to the characters that can occur in this program:
space, tab, newline, carriage return, vertical tab, form feed). -/
def jsIsSpace (c : Char) : Bool :=
  c = ' ' || c = '\t' || c = '\n' || c = '\r' || c = Char.ofNat 11 || c = Char.ofNat 12

/-- One character of `String.prototype.toLowerCase`, for the alphabets
this program manipulates: ASCII letters and the Russian Cyrillic block
(А..Я and Ё) that item names and the sentinel strings use. -/
def jsCharLower (c : Char) : Char :=
  if 'A' ≤ c ∧ c ≤ 'Z' then Char.ofNat (c.toNat + 32)
  else if Char.ofNat 0x410 ≤ c ∧ c ≤ Char.ofNat 0x42F then Char.ofNat (c.toNat + 0x20)
  else if c = Char.ofNat 0x401 then Char.ofNat 0x451
  else c

/-- `text.toLowerCase()`. -/
def jsToLower (s : String) : String := String.mk (s.data.map jsCharLower)

/-- Drop trailing characters satisfying `p`. -/
def dropTrailing (p : Char → Bool) (cs : List Char) : List Char :=
  (cs.reverse.dropWhile p).reverse

/-- `text.trim()` on a character list. -/
def jsTrimChars (cs : List Char) : List Char :=
  dropTrailing jsIsSpace (cs.dropWhile jsIsSpace)

/-- `text.trim()`. -/
def jsTrim (s : String) : String := String.mk (jsTrimChars s.data)

/-- `text.replace(tgt, rep)` for single-character patterns: JavaScript
replaces only the first occurrence. -/
def replaceFirstChar (tgt rep : Char) : List Char → List Char
  | [] => []
  | c :: rest => if c = tgt then rep :: rest else c :: replaceFirstChar tgt rep rest

/-- Helper for the leftmost match of `/\s*:\s*/`: if `cs` is a
whitespace run followed by a colon, return the characters after that
colon. -/
def wsThenColon : List Char → Option (List Char)
  | [] => none
  | c :: rest => if c = ':' then some rest
                 else if jsIsSpace c then wsThenColon rest
                 else none

/-- `text.replace(/\s*:\s*/, ': ')`: the regex has no `g` flag, so only
the leftmost match — the first colon together with the whitespace
immediately around it — is rewritten to `": "`. -/
def colonSpaceFix : List Char → List Char
  | [] => []
  | c :: rest =>
    match wsThenColon (c :: rest) with
    | some after => ':' :: ' ' :: after.dropWhile jsIsSpace
    | none => c :: colonSpaceFix rest

/-- `text.replace(/\s+/, ' ')`: again no `g` flag, so only the first
(maximal) whitespace run collapses to a single space. -/
def wsCollapseFirst : List Char → List Char
  | [] => []
  | c :: rest =>
    if jsIsSpace c then ' ' :: rest.dropWhile jsIsSpace
    else c :: wsCollapseFirst rest

/-- `normalizeString` from src/server/services/warframe-market.ts:

    if (!text) return "";
    return text.toLowerCase().replace('ё', 'е').trim()
      .replace(/\s*:\s*/, ': ')
      .replace(/\s+/, ' ');

(The replaced character pair is the Cyrillic letter yo mapped to ye.) -/
def normalizeString (text : String) : String :=
  if text = "" then ""
  else String.mk (wsCollapseFirst (colonSpaceFix (jsTrimChars
    (replaceFirstChar (Char.ofNat 0x451) (Char.ofNat 0x435)
      ((jsToLower text).data)))))

/-! ### Data model -/

/-- An inventory record (shared/schema `InventoryItem`).  Prices are
integral platinum amounts; the two averages are rationals (the code
rounds them to two decimal places). -/
structure InventoryItem where
  id : Nat
  name : String
  slug : Option String
  quantity : Int
  sellPrices : List Int
  buyPrices : List Int
  avgSell : Rat
  avgBuy : Rat
  marketUrl : Option String
  category : String
deriving DecidableEq, Repr

/-- The argument of `createInventoryItem` (shared/schema
`InsertInventoryItem`); optional fields receive defaults in the store. -/
structure InsertItem where
  name : String
  slug : Option String := none
  quantity : Option Int := none
  sellPrices : List Int := []
  buyPrices : List Int := []
  avgSell : Option Rat := none
  avgBuy : Option Rat := none
  marketUrl : Option String := none
  category : String := "Unknown"
deriving DecidableEq, Repr

/-- Processing-job status strings. -/
inductive JobStatus where
  | pending
  | processing
  | completed
  | failed
deriving DecidableEq, Repr

/-- A processing job record (shared/schema `ProcessingJob`); the
`createdAt` timestamp is not modelled. -/
structure ProcessingJob where
  id : Nat
  status : JobStatus
  totalImages : Nat
  processedImages : Nat
  totalItems : Nat
  processedItems : Nat
  logs : List String
deriving DecidableEq, Repr

/-- The argument of `createProcessingJob`. -/
structure InsertJob where
  status : Option JobStatus := none
  totalImages : Option Nat := none
  processedImages : Option Nat := none
  totalItems : Option Nat := none
  processedItems : Option Nat := none
  logs : List String := []
deriving DecidableEq, Repr

/-- `Partial<ProcessingJob>` as passed to `updateProcessingJob`; absent
fields leave the record unchanged (`{...existing, ...updates}`). -/
structure JobPatch where
  status : Option JobStatus := none
  totalImages : Option Nat := none
  processedImages : Option Nat := none
  totalItems : Option Nat := none
  processedItems : Option Nat := none
  logs : Option (List String) := none
deriving DecidableEq, Repr

/-- Applying a `JobPatch` to a job record: `{...existing, ...updates}`. -/
def applyPatch (j : ProcessingJob) (p : JobPatch) : ProcessingJob :=
  { j with
    status := p.status.getD j.status
    totalImages := p.totalImages.getD j.totalImages
    processedImages := p.processedImages.getD j.processedImages
    totalItems := p.totalItems.getD j.totalItems
    processedItems := p.processedItems.getD j.processedItems
    logs := p.logs.getD j.logs }

/-- `MemStorage` (src/server/storage.ts): inventories are scoped by
session id; jobs are global.  `randomUUID()` is modelled by the fresh
counter `nextId`, shared by items and jobs. -/
structure MemStorage where
  inventoryItems : List (String × List InventoryItem)
  processingJobs : List ProcessingJob
  nextId : Nat
deriving DecidableEq, Repr

/-- The empty store (`new MemStorage()`). -/
def emptyStorage : MemStorage := { inventoryItems := [], processingJobs := [], nextId := 0 }

/-- `getSessionInventory`: the session's item map (read-only view; the
lazily-created empty map of the source is observationally the same as
defaulting to the empty list). -/
def sessionInventory (sess : String) (st : MemStorage) : List InventoryItem :=
  ((st.inventoryItems.find? (fun e => e.1 = sess)).map (·.2)).getD []

/-- Replace the session's inventory list. -/
def setSessionInventory (sess : String) (inv : List InventoryItem) (st : MemStorage) : MemStorage :=
  if (st.inventoryItems.find? (fun e => e.1 = sess)).isSome then
    { st with inventoryItems :=
        st.inventoryItems.map (fun e => if e.1 = sess then (e.1, inv) else e) }
  else
    { st with inventoryItems := st.inventoryItems ++ [(sess, inv)] }

/-- `getInventoryItems(sessionId)`. -/
def getInventoryItems (sess : String) (st : MemStorage) : List InventoryItem :=
  sessionInventory sess st

/-- `getInventoryItem(sessionId, id)`. -/
def getInventoryItem (sess : String) (id : Nat) (st : MemStorage) : Option InventoryItem :=
  (sessionInventory sess st).find? (fun it => it.id = id)

/-- `createInventoryItem(sessionId, insertItem)`: assigns a fresh id and
fills the defaults (`quantity ?? 1`, empty price lists, zero averages). -/
def createInventoryItem (sess : String) (f : InsertItem) (st : MemStorage) :
    InventoryItem × MemStorage :=
  let item : InventoryItem :=
    { id := st.nextId
      name := f.name
      slug := f.slug
      quantity := f.quantity.getD 1
      sellPrices := f.sellPrices
      buyPrices := f.buyPrices
      avgSell := f.avgSell.getD 0
      avgBuy := f.avgBuy.getD 0
      marketUrl := f.marketUrl
      category := f.category }
  (item, { setSessionInventory sess (sessionInventory sess st ++ [item]) st with
            nextId := st.nextId + 1 })

/-- `updateInventoryItemQuantity(sessionId, {id, quantity})`: throws
(`Except.error`) when the id is absent in that session, otherwise
stores the new quantity unchecked. -/
def updateInventoryItemQuantity (sess : String) (id : Nat) (q : Int) (st : MemStorage) :
    Except String MemStorage :=
  match (sessionInventory sess st).find? (fun it => it.id = id) with
  | none => .error ("Inventory item with id " ++ toString id ++ " not found")
  | some _ => .ok (setSessionInventory sess
      ((sessionInventory sess st).map
        (fun it => if it.id = id then { it with quantity := q } else it)) st)

/-- `deleteInventoryItem(sessionId, id)` (idempotent). -/
def deleteInventoryItem (sess : String) (id : Nat) (st : MemStorage) : MemStorage :=
  setSessionInventory sess ((sessionInventory sess st).filter (fun it => ¬ it.id = id)) st

/-- The comparison used by `findInventoryItemByName`:
`item.name.toLowerCase().trim() === name.toLowerCase().trim()`. -/
def lowerTrimEq (a b : String) : Bool := jsTrim (jsToLower a) = jsTrim (jsToLower b)

/-- `findInventoryItemByName(sessionId, name)`: first item of the
session whose lower-cased, trimmed name equals the lower-cased, trimmed
query.  Note: this uses plain `toLowerCase().trim()`, not
`normalizeString`. -/
def findInventoryItemByName (sess : String) (name : String) (st : MemStorage) :
    Option InventoryItem :=
  (sessionInventory sess st).find? (fun it => lowerTrimEq it.name name)

/-- `clearInventory(sessionId)`. -/
def clearInventory (sess : String) (st : MemStorage) : MemStorage :=
  setSessionInventory sess [] st

/-- `getProcessingJob(id)`. -/
def getProcessingJob (id : Nat) (st : MemStorage) : Option ProcessingJob :=
  st.processingJobs.find? (fun j => j.id = id)

/-- `createProcessingJob(insertJob)` with the source's defaults
(`status ?? "pending"`, zero counters, empty log). -/
def createProcessingJob (f : InsertJob) (st : MemStorage) : ProcessingJob × MemStorage :=
  let job : ProcessingJob :=
    { id := st.nextId
      status := f.status.getD .pending
      totalImages := f.totalImages.getD 0
      processedImages := f.processedImages.getD 0
      totalItems := f.totalItems.getD 0
      processedItems := f.processedItems.getD 0
      logs := f.logs }
  (job, { st with processingJobs := st.processingJobs ++ [job], nextId := st.nextId + 1 })

/-- Rewrite the job with the given id (ids are unique by construction).
In the source, `updateProcessingJob`/`addProcessingLog` throw when the
id is absent; every run modelled below operates on a job created
beforehand, so the absent case (modelled as a no-op) is never taken. -/
def modifyJob (id : Nat) (f : ProcessingJob → ProcessingJob) (st : MemStorage) : MemStorage :=
  { st with processingJobs := st.processingJobs.map (fun j => if j.id = id then f j else j) }

/-- `updateProcessingJob(id, updates)`. -/
def updateProcessingJob (id : Nat) (p : JobPatch) (st : MemStorage) : MemStorage :=
  modifyJob id (fun j => applyPatch j p) st

/-- `addProcessingLog(id, log)`: appends the message to the job's log
(the wall-clock prefix is not modelled). -/
def addProcessingLog (id : Nat) (msg : String) (st : MemStorage) : MemStorage :=
  modifyJob id (fun j => { j with logs := j.logs ++ [msg] }) st

/-! ### Market enrichment adapter (src/server/services/warframe-market.ts)

The external HTTP calls are opaque: the bulk catalog is a parameter
`cache` (the `itemsCache` map, keyed by normalised Russian name), and
the per-slug order fetch is a parameter `fetch` whose `error` outcome
covers every failure `getItemPrices` catches (network error, non-OK
response, malformed body). -/

/-- A catalog entry (`WFMItem`, with `i18n.ru.name` flattened). -/
structure WFMItem where
  slug : String
  name : String
deriving DecidableEq, Repr

/-- The body of a successful order fetch (`WFMOrderData`): the platinum
amounts of the top sell and buy orders. -/
structure WFMOrderData where
  sell : List Int
  buy : List Int
deriving DecidableEq, Repr

/-- The enrichment result (`WarframeMarketItem`). -/
structure MarketItem where
  slug : String
  name : String
  sellPrices : List Int
  buyPrices : List Int
  avgSell : Rat
  avgBuy : Rat
  marketUrl : String
deriving DecidableEq, Repr

/-- `Math.round(x * 100) / 100`: round to two decimal places, halves
toward positive infinity as `Math.round` does. -/
def round2 (q : Rat) : Rat := (⌊q * 100 + 1/2⌋ : Int) / 100

/-- `findItemSlug(itemName)`: look the normalised name up in the cache;
`item?.slug || null` also maps an empty slug to `null`. -/
def findItemSlug (cache : List (String × WFMItem)) (itemName : String) : Option String :=
  match (cache.find? (fun e => e.1 = normalizeString itemName)).map (·.2) with
  | none => none
  | some it => if it.slug = "" then none else some it.slug

/-- `getItemPrices(slug)`: on any fetch failure the exception is caught
and `null` is returned; otherwise averages are computed (zero for empty
lists) and the deep link is built from the slug. -/
def getItemPrices (cache : List (String × WFMItem)) (fetch : String → Except String WFMOrderData)
    (slug : String) : Option MarketItem :=
  match fetch slug with
  | .error _ => none
  | .ok od =>
    let sellPrices := od.sell
    let buyPrices := od.buy
    let avgSell : Rat :=
      if sellPrices.length > 0 then round2 ((sellPrices.sum : Rat) / sellPrices.length) else 0
    let avgBuy : Rat :=
      if buyPrices.length > 0 then round2 ((buyPrices.sum : Rat) / buyPrices.length) else 0
    let name :=
      match (cache.map (·.2)).find? (fun it => it.slug = slug) with
      | some it => if it.name = "" then slug else it.name
      | none => slug
    some { slug := slug, name := name, sellPrices := sellPrices, buyPrices := buyPrices,
           avgSell := avgSell, avgBuy := avgBuy,
           marketUrl := "https://warframe.market/ru/items/" ++ slug }

/-- `processItemForMarket(itemName)`: `null` (not-found) when the name
has no catalog slug, otherwise the price fetch for that slug. -/
def processItemForMarket (cache : List (String × WFMItem))
    (fetch : String → Except String WFMOrderData) (itemName : String) : Option MarketItem :=
  match findItemSlug cache itemName with
  | none => none
  | some slug => getItemPrices cache fetch slug

/-! ### Ingestion pipeline (`processImagesAsync`, src/server/routes.ts)

The vision call is opaque: each submitted image is represented by the
result of `analyzeInventoryImage` for it — either a recognised list of
(name, quantity) pairs or a thrown error. -/

/-- Processing mode of `processImagesAsync`. -/
inductive Mode where
  | oneshot
  | online
  | edit
deriving DecidableEq, Repr

/-- One `itemCounts.set(name, (get(name) || 0) + qty)` step: bump the
entry for an exact (not normalised) name, preserving insertion order. -/
def bumpCount : List (String × Int) → String → Int → List (String × Int)
  | [], n, q => [(n, q)]
  | (m, c) :: rest, n, q =>
    if m = n then (m, c + q) :: rest else (m, c) :: bumpCount rest n q

/-- Aggregation of all recognised pairs into one multiset of exact
names (step 2 of the pipeline). -/
def aggregate (items : List (String × Int)) : List (String × Int) :=
  items.foldl (fun acc it => bumpCount acc it.1 it.2) []

/-- `itemName.includes('(Чертеж)')` : substring containment. -/
def containsSub (sub : List Char) : List Char → Bool
  | [] => sub.isEmpty
  | c :: rest => sub.isPrefixOf (c :: rest) || containsSub sub rest

/-- Category convention of the pipeline: blueprint marker or default. -/
def categoryOf (name : String) : String :=
  if containsSub "(Чертеж)".data name.data then "Чертежи" else "Prime части"

/-- The per-image loop of `processImagesAsync` (lines 655-669).  For
each image: log, then either extend the aggregate, advance
`processedImages` and log the count — or, when the vision call threw,
log the error and continue.  Returns the recognised pairs, the trace of
states after each storage mutation, and the final state. -/
def imageLoop (jobId : Nat) (total : Nat) :
    List (Except String (List (String × Int))) → Nat → List (String × Int) → MemStorage →
    List (String × Int) × List MemStorage × MemStorage
  | [], _, acc, st => (acc, [], st)
  | r :: rest, i, acc, st =>
    let st1 := addProcessingLog jobId
      ("Analyzing image " ++ toString (i + 1) ++ "/" ++ toString total) st
    match r with
    | .ok items =>
      let st2 := updateProcessingJob jobId { processedImages := some (i + 1) } st1
      let st3 := addProcessingLog jobId
        ("Found " ++ toString items.length ++ " items") st2
      let rec1 := imageLoop jobId total rest (i + 1) (acc ++ items) st3
      (rec1.1, st1 :: st2 :: st3 :: rec1.2.1, rec1.2.2)
    | .error e =>
      let st2 := addProcessingLog jobId ("Error analyzing: " ++ e) st1
      let rec1 := imageLoop jobId total rest (i + 1) acc st2
      (rec1.1, st1 :: st2 :: rec1.2.1, rec1.2.2)

/-- The per-item reconciliation loop of `processImagesAsync` (lines
686-743).  `count` is `processedCount`.  Branches exactly as the
source: existing item in `edit` mode merges quantities, existing item
otherwise is overwritten, unknown names are created with or without
market data; a thrown store update is caught and logged (the
`processedCount` increment and `processedItems` update are then
skipped). -/
def itemLoop (jobId : Nat) (sess : String) (mode : Mode) (market : String → Option MarketItem) :
    List (String × Int) → Nat → MemStorage → List MemStorage × MemStorage
  | [], _, st => ([], st)
  | (name, tq) :: rest, count, st =>
    match findInventoryItemByName sess name st with
    | some ex =>
      let newq : Int := if mode = .edit then ex.quantity + tq else tq
      (match updateInventoryItemQuantity sess ex.id newq st with
       | .ok st1 =>
         let st2 := addProcessingLog jobId ("Updated quantity for: " ++ name) st1
         let st3 := updateProcessingJob jobId { processedItems := some (count + 1) } st2
         let rec1 := itemLoop jobId sess mode market rest (count + 1) st3
         (st1 :: st2 :: st3 :: rec1.1, rec1.2)
       | .error e =>
         let st1 := addProcessingLog jobId ("Error processing " ++ name ++ ": " ++ e) st
         let rec1 := itemLoop jobId sess mode market rest count st1
         (st1 :: rec1.1, rec1.2))
    | none =>
      match market name with
      | some md =>
        let st1 := (createInventoryItem sess
          { name := name, slug := some md.slug, quantity := some tq,
            sellPrices := md.sellPrices, buyPrices := md.buyPrices,
            avgSell := some md.avgSell, avgBuy := some md.avgBuy,
            marketUrl := some md.marketUrl, category := categoryOf name } st).2
        let st2 := addProcessingLog jobId ("Added new item: " ++ name) st1
        let st3 := updateProcessingJob jobId { processedItems := some (count + 1) } st2
        let rec1 := itemLoop jobId sess mode market rest (count + 1) st3
        (st1 :: st2 :: st3 :: rec1.1, rec1.2)
      | none =>
        let st1 := (createInventoryItem sess
          { name := name, slug := none, quantity := some tq,
            sellPrices := [], buyPrices := [],
            avgSell := some 0, avgBuy := some 0,
            marketUrl := none, category := "Unknown" } st).2
        let st2 := addProcessingLog jobId ("Added item (not found in market): " ++ name) st1
        let st3 := updateProcessingJob jobId { processedItems := some (count + 1) } st2
        let rec1 := itemLoop jobId sess mode market rest (count + 1) st3
        (st1 :: st2 :: st3 :: rec1.1, rec1.2)

/-- `processImagesAsync(jobId, sessionId, files, mode)`: analyse each
image, aggregate, set the item counters, reconcile, mark completed.
Returns the trace of states after every storage mutation together with
the final state. -/
def processImagesAsync (jobId : Nat) (sess : String)
    (vision : List (Except String (List (String × Int))))
    (market : String → Option MarketItem) (mode : Mode) (st : MemStorage) :
    List MemStorage × MemStorage :=
  let st1 := addProcessingLog jobId "Starting image analysis..." st
  let img := imageLoop jobId vision.length vision 0 [] st1
  let counts := aggregate img.1
  let st3 := updateProcessingJob jobId
    { totalItems := some counts.length, processedItems := some 0 } img.2.2
  let st4 := addProcessingLog jobId
    ("Processing " ++ toString counts.length ++ " unique items...") st3
  let itm := itemLoop jobId sess mode market counts 0 st4
  let st6 := updateProcessingJob jobId { status := some .completed } itm.2
  let st7 := addProcessingLog jobId "Processing completed successfully!" st6
  (st1 :: img.2.1 ++ st3 :: st4 :: itm.1 ++ [st6, st7], st7)

/-- One of the image-submission routes (`/api/process-images`,
`/api/add-screenshots` with mode `edit`, `/api/process-oneshot`,
`/api/process-online`): create the job (status `processing`,
`totalImages` = number of files, all other counters zero) and run the
pipeline.  Returns the job id, the trace (the state right after job
creation followed by the pipeline trace) and the final state. -/
def submitImagesRoute (sess : String)
    (vision : List (Except String (List (String × Int))))
    (market : String → Option MarketItem) (mode : Mode) (st : MemStorage) :
    Nat × List MemStorage × MemStorage :=
  let c := createProcessingJob
    { status := some .processing, totalImages := some vision.length,
      processedImages := some 0, totalItems := some 0, processedItems := some 0,
      logs := [] } st
  let run := processImagesAsync c.1.id sess vision market mode c.2
  (c.1.id, c.2 :: run.1, run.2)

/-! ### Spreadsheet bridge

A worksheet is a list of rows; a row is a list of cells.  A cell is
empty (ExcelJS `null`, skipped by `eachCell`), a string, or a number.
`worksheet.eachRow` iterates over the rows that carry values, so the
model's row list contains exactly those rows.

JavaScript guarantees `parseFloat(x.toString()) === x` for every finite
number `x` (`toString` prints the shortest round-tripping decimal), so
the composite read `parseFloat(cell.value.toString())` of a numeric
cell is modelled as the identity, and the corresponding `parseInt` read
as truncation toward zero. -/

/-- A spreadsheet cell value. -/
inductive Cell where
  | empty
  | str (s : String)
  | num (q : Rat)
deriving DecidableEq, Repr

/-- A spreadsheet row. -/
abbrev Row := List Cell

/-- `row.getCell(n)` (1-indexed; absent cells read as empty). -/
def getCellR (n : Nat) (r : Row) : Cell := r.getD (n - 1) .empty

/-- JavaScript truthiness of a cell value (`if (priceValue)` and the
`itemName &&`-style guards): `null`/`undefined`, the empty string and
the number `0` are falsy. -/
def cellTruthy : Cell → Bool
  | .empty => false
  | .str s => ¬ s = ""
  | .num q => ¬ q = 0

/-! #### Decimal digits: the shapes `toString`/`parseInt`/`Number` take
on the integral values this program writes into cells. -/

/-- Is `c` an ASCII decimal digit (JavaScript regex `\d`)? -/
def isDigitCh (c : Char) : Bool := 48 ≤ c.toNat && c.toNat ≤ 57

/-- The digit character for `d < 10`. -/
def digitCh (d : Nat) : Char := Char.ofNat (48 + d)

/-- `n.toString()` for a natural number: big-endian decimal digits. -/
def natToChars (n : Nat) : List Char :=
  if n = 0 then ['0'] else (Nat.digits 10 n).reverse.map digitCh

/-- `i.toString()` for an integer. -/
def intToChars (i : Int) : List Char :=
  if i < 0 then '-' :: natToChars i.natAbs else natToChars i.toNat

/-- Numeric value of a big-endian digit string. -/
def charsToNat (cs : List Char) : Nat :=
  cs.foldl (fun a c => a * 10 + (c.toNat - 48)) 0

/-- `Number(s)` for the strings produced by joining integral prices:
an optional minus sign followed by digits.  (`Number('') === 0`; the
`NaN` result for other strings is outside the shapes this program
produces and is modelled as 0.) -/
def jsNumberToInt (cs : List Char) : Int :=
  if cs.head? = some '-' then
    (if (cs.drop 1) ≠ [] ∧ (cs.drop 1).all isDigitCh then -(charsToNat (cs.drop 1) : Int) else 0)
  else if cs.all isDigitCh then (charsToNat cs : Int) else 0

/-- `prices.join(', ')` for integral platinum prices. -/
def joinIntsChars : List Int → List Char
  | [] => []
  | [p] => intToChars p
  | p :: q :: rest => intToChars p ++ ',' :: ' ' :: joinIntsChars (q :: rest)

/-- `s.split(', ')`: cut at every occurrence of the two-character
separator, scanning left to right. -/
def splitCommaSp : List Char → List (List Char)
  | [] => [[]]
  | [c] => [[c]]
  | c :: d :: rest =>
    if c = ',' ∧ d = ' ' then [] :: splitCommaSp rest
    else
      match splitCommaSp (d :: rest) with
      | [] => [[c]]
      | t :: ts => (c :: t) :: ts

/-- `cell.value?.toString()`.  For a numeric cell the printed form only
matters where the program re-parses it, which is modelled by the
composite readers below; the printed form itself is only needed
syntactically and uses the integer digits (exact for the integral
values this program writes). -/
def cellToStringOpt : Cell → Option String
  | .empty => none
  | .str s => some s
  | .num q => some (if q.den = 1 then String.mk (intToChars q.num) else toString q)

/-- Truncation toward zero of a rational (`parseInt` applied to the
decimal print of a number). -/
def ratTrunc (q : Rat) : Int := q.num / (q.den : Int)

/-- `parseInt(cell.value?.toString() || '0')` (used for the quantity
column): numeric cells truncate toward zero, string cells parse an
optional sign and leading digits, anything unparsable is 0 (modelling
`NaN`, which none of the claims exercise). -/
def cellParseIntD (c : Cell) : Int :=
  match c with
  | .empty => 0
  | .num q => ratTrunc q
  | .str s =>
    match s.data with
    | '-' :: rest => -(charsToNat (rest.takeWhile isDigitCh) : Int)
    | cs => (charsToNat (cs.takeWhile isDigitCh) : Int)

/-- `parseFloat(cell.value?.toString() || '0')` (used for the average
columns): the identity on numeric cells (JavaScript print/parse round
trip); string cells, which the exported workbooks never use for these
columns, parse leading digits only (fractional strings are outside the
shapes the program writes). -/
def cellParseFloatD (c : Cell) : Rat :=
  match c with
  | .empty => 0
  | .num q => q
  | .str s =>
    match s.data with
    | '-' :: rest => -((charsToNat (rest.takeWhile isDigitCh) : Int) : Rat)
    | cs => ((charsToNat (cs.takeWhile isDigitCh) : Int) : Rat)

/-! #### Export (`GET /api/export/excel`, routes.ts lines 288-312) -/

/-- The header row of the exported workbook. -/
def exportHeader : Row :=
  [.str "Название", .str "Количество", .str "Slug", .str "Цены продажи",
   .str "Цены покупки", .str "Средняя продажа", .str "Средняя покупка", .str "Ссылка"]

/-- `slug || 'НЕ НАЙДЕН'` and friends: JavaScript `||` on an optional
string treats `null`/`undefined` and `""` as absent. -/
def orSentinel (v : Option String) (sentinel : String) : String :=
  match v with
  | some s => if s = "" then sentinel else s
  | none => sentinel

/-- One exported data row (lines 302-311): name, quantity, slug or
sentinel, the two joined price lists or sentinel, the two averages
(`|| 0`), market URL or sentinel. -/
def exportRow (it : InventoryItem) : Row :=
  [.str it.name,
   .num (it.quantity : Rat),
   .str (orSentinel it.slug "НЕ НАЙДЕН"),
   .str (if String.mk (joinIntsChars it.sellPrices) = "" then "Нет"
         else String.mk (joinIntsChars it.sellPrices)),
   .str (if String.mk (joinIntsChars it.buyPrices) = "" then "Нет"
         else String.mk (joinIntsChars it.buyPrices)),
   .num (if it.avgSell = 0 then 0 else it.avgSell),
   .num (if it.avgBuy = 0 then 0 else it.avgBuy),
   .str (orSentinel it.marketUrl "N/A")]

/-- The full exported workbook for a session's items. -/
def exportWorkbook (items : List InventoryItem) : List Row :=
  exportHeader :: items.map exportRow

/-! #### Import (`loadExcelFileAsync`, routes.ts lines 749-819) -/

/-- Parse one data row back into an insert record (lines 777-797);
`none` when the name cell is falsy, in which case the row is skipped.
The sentinels 'НЕ НАЙДЕН', 'Нет' and 'N/A' map back to absent/empty
values. -/
def rowToInsertItem (r : Row) : Option InsertItem :=
  match cellToStringOpt (getCellR 1 r) with
  | none => none
  | some n =>
    if n = "" then none
    else some
      { name := n
        slug :=
          match cellToStringOpt (getCellR 3 r) with
          | none => none
          | some s => if s = "НЕ НАЙДЕН" then none else some s
        quantity := some (cellParseIntD (getCellR 2 r))
        sellPrices :=
          match cellToStringOpt (getCellR 4 r) with
          | none => []
          | some s => if s = "" ∨ s = "Нет" then []
                      else (splitCommaSp s.data).map jsNumberToInt
        buyPrices :=
          match cellToStringOpt (getCellR 5 r) with
          | none => []
          | some s => if s = "" ∨ s = "Нет" then []
                      else (splitCommaSp s.data).map jsNumberToInt
        avgSell := some (cellParseFloatD (getCellR 6 r))
        avgBuy := some (cellParseFloatD (getCellR 7 r))
        marketUrl :=
          match cellToStringOpt (getCellR 8 r) with
          | none => none
          | some s => if s = "N/A" then none else some s
        category := categoryOf n }

/-- The per-row creation loop of `loadExcelFileAsync`: each row with a
truthy name becomes a fresh store record (insertion order follows row
order), advancing `processedItems` and logging; other rows are
skipped. -/
def loadRowsLoop (jobId : Nat) (sess : String) :
    List Row → Nat → MemStorage → MemStorage
  | [], _, st => st
  | r :: rest, loaded, st =>
    match rowToInsertItem r with
    | none => loadRowsLoop jobId sess rest loaded st
    | some f =>
      let st1 := (createInventoryItem sess f st).2
      let st2 := updateProcessingJob jobId { processedItems := some (loaded + 1) } st1
      let st3 := addProcessingLog jobId ("Loaded: " ++ f.name) st2
      loadRowsLoop jobId sess rest (loaded + 1) st3

/-- `loadExcelFileAsync(jobId, sessionId, excelFile)`: clear the
session's inventory, then create one record per data row (the header
row is skipped), then mark the job completed. -/
def loadExcelFileAsync (jobId : Nat) (sess : String) (rows : List Row) (st : MemStorage) :
    MemStorage :=
  let st1 := addProcessingLog jobId "Loading Excel file into database..." st
  let st2 := clearInventory sess st1
  let st3 := addProcessingLog jobId "Cleared existing inventory" st2
  let st4 := updateProcessingJob jobId
    { totalItems := some (rows.length - 1), processedItems := some 0 } st3
  let st5 := loadRowsLoop jobId sess (rows.drop 1) 0 st4
  let st6 := updateProcessingJob jobId { status := some .completed } st5
  addProcessingLog jobId "Excel file loaded successfully!" st6

/-! #### Price-threshold split (`splitExcelByPriceAsync`, lines 552-647) -/

/-- `firstPrice` (lines 594-602): 0 unless the price cell is truthy and
its text starts with digits, in which case those leading digits parse
as the price. -/
def firstPrice (c : Cell) : Nat :=
  if cellTruthy c then
    match cellToStringOpt c with
    | none => 0
    | some s =>
      match s.data.takeWhile isDigitCh with
      | [] => 0
      | ds => charsToNat ds
  else 0

/-- The leading price of a data row: cell 4 (column D). -/
def rowPrice (r : Row) : Nat := firstPrice (getCellR 4 r)

/-- Result of the split: the two output worksheets (each starting with
the copied header) and the two counters. -/
structure SplitResult where
  lowRows : List Row
  highRows : List Row
  lowCount : Nat
  highCount : Nat
  totalRows : Nat
deriving DecidableEq, Repr

/-- The row loop of `splitExcelByPriceAsync` (lines 588-619): each data
row is appended to the low output when its leading price is ≤ 10 and to
the high output otherwise. -/
def splitLoop : List Row → SplitResult → SplitResult
  | [], acc => acc
  | r :: rest, acc =>
    if rowPrice r ≤ 10 then
      splitLoop rest { acc with lowRows := acc.lowRows ++ [r],
                                lowCount := acc.lowCount + 1,
                                totalRows := acc.totalRows + 1 }
    else
      splitLoop rest { acc with highRows := acc.highRows ++ [r],
                                highCount := acc.highCount + 1,
                                totalRows := acc.totalRows + 1 }

/-- `splitExcelByPriceAsync` on a workbook given as header plus data
rows: both outputs receive a copy of the header, every data row goes to
exactly one output by the ≤ 10 threshold. -/
def splitExcelByPrice (header : Row) (dataRows : List Row) : SplitResult :=
  splitLoop dataRows
    { lowRows := [header], highRows := [header], lowCount := 0, highCount := 0, totalRows := 0 }

/-! ### Store-operation sequences (for the create/updateQuantity claims) -/

/-- An operation of the inventory store restricted to the two
operations §8 of the specification quantifies over. -/
inductive StoreOp where
  | create (f : InsertItem)
  | updateQty (id : Nat) (q : Int)
deriving DecidableEq, Repr

/-- Run a sequence of store operations for one session.  A thrown
`updateQuantity` (absent id) leaves the store unchanged — the route
catches the exception and answers 500 without mutating anything. -/
def runOps (sess : String) : List StoreOp → MemStorage → MemStorage
  | [], st => st
  | .create f :: rest, st => runOps sess rest (createInventoryItem sess f st).2
  | .updateQty id q :: rest, st =>
    match updateInventoryItemQuantity sess id q st with
    | .ok st1 => runOps sess rest st1
    | .error _ => runOps sess rest st

/-- Specification-side account of "the most recent value set" for a
given id: walks the operation list tracking the quantity last assigned
to that id (`none` while the id does not exist; creations take ids from
the fresh counter, and an update only counts when the id exists). -/
def specLastSet (nextId : Nat) (id : Nat) : List StoreOp → Option Int → Option Int
  | [], cur => cur
  | .create f :: rest, cur =>
    specLastSet (nextId + 1) id rest (if nextId = id then some (f.quantity.getD 1) else cur)
  | .updateQty i q :: rest, cur =>
    specLastSet nextId id rest (if i = id ∧ cur.isSome then some q else cur)

/-- All quantities supplied by a sequence of operations are
non-negative (what the route-level zod validation enforces before the
store is reached). -/
def OpsNonNeg (ops : List StoreOp) : Prop :=
  ∀ op ∈ ops, match op with
    | .create f => 0 ≤ f.quantity.getD 1
    | .updateQty _ q => 0 ≤ q

/-- Well-formedness of a store: every item id of the session and every
job id was produced by the fresh counter.  This holds for the empty
store and is preserved by every operation. -/
def ItemIdsFresh (sess : String) (st : MemStorage) : Prop :=
  ∀ it ∈ sessionInventory sess st, it.id < st.nextId

/-- Every job id is below the fresh counter (true of all reachable
states; `randomUUID` collisions do not occur). -/
def JobIdsFresh (st : MemStorage) : Prop :=
  ∀ j ∈ st.processingJobs, j.id < st.nextId

/-- Characters that are neither whitespace nor a colon. -/
def PlainChars (cs : List Char) : Prop :=
  ∀ c ∈ cs, jsIsSpace c = false ∧ c ≠ ':'

/-- The eight fields the round-trip claim compares (identifiers are
freshly assigned on import and the category is recomputed, so neither
is part of the claim). -/
def itemFields (it : InventoryItem) :
    String × Int × List Int × List Int × Rat × Rat × Option String × Option String :=
  (it.name, it.quantity, it.sellPrices, it.buyPrices, it.avgSell, it.avgBuy,
    it.slug, it.marketUrl)

/-- The items for which export followed by import is lossless: the name
is non-empty (a row with a falsy name cell is skipped on import) and
the optional string fields do not themselves collide with the sentinel
conventions (empty strings export as sentinels, and a literal sentinel
string imports as absent). -/
def GoodItem (it : InventoryItem) : Prop :=
  it.name ≠ "" ∧ it.slug ≠ some "" ∧ it.slug ≠ some "НЕ НАЙДЕН"
    ∧ it.marketUrl ≠ some "" ∧ it.marketUrl ≠ some "N/A"

instance (it : InventoryItem) : Decidable (GoodItem it) := by
  unfold GoodItem
  infer_instance

/-- Same job record up to the log list. -/
def JobLike (j j2 : ProcessingJob) : Prop :=
  j2.status = j.status ∧ j2.totalImages = j.totalImages
    ∧ j2.processedImages = j.processedImages
    ∧ j2.totalItems = j.totalItems ∧ j2.processedItems = j.processedItems

/-- The properties of a job record that the image loop maintains,
relative to the job `j` it started from. -/
def ImgInv (j j2 : ProcessingJob) : Prop :=
  j2.status = j.status ∧ j2.totalImages = j.totalImages
    ∧ j2.processedImages ≤ j2.totalImages
    ∧ j2.totalItems = j.totalItems ∧ j2.processedItems = j.processedItems

/-- The properties of a job record that the reconciliation loop
maintains, relative to the job `j` it started from. -/
def ItemInv (j j2 : ProcessingJob) : Prop :=
  j2.status = j.status ∧ j2.totalImages = j.totalImages
    ∧ j2.processedImages = j.processedImages
    ∧ j2.totalItems = j.totalItems ∧ j2.processedItems ≤ j2.totalItems

/-- Stage names for the pipeline's successive states (definitional
abbreviations of the states occurring inside `processImagesAsync`). -/
def stStart (jobId : Nat) (st : MemStorage) : MemStorage :=
  addProcessingLog jobId "Starting image analysis..." st

def imgOf (jobId : Nat) (vision : List (Except String (List (String × Int))))
    (st : MemStorage) : List (String × Int) × List MemStorage × MemStorage :=
  imageLoop jobId vision.length vision 0 [] (stStart jobId st)

def countsOf (jobId : Nat) (vision : List (Except String (List (String × Int))))
    (st : MemStorage) : List (String × Int) :=
  aggregate (imgOf jobId vision st).1

def stItems (jobId : Nat) (vision : List (Except String (List (String × Int))))
    (st : MemStorage) : MemStorage :=
  updateProcessingJob jobId
    { totalItems := some (countsOf jobId vision st).length, processedItems := some 0 }
    (imgOf jobId vision st).2.2

def stMsg (jobId : Nat) (vision : List (Except String (List (String × Int))))
    (st : MemStorage) : MemStorage :=
  addProcessingLog jobId
    ("Processing " ++ toString (countsOf jobId vision st).length ++ " unique items...")
    (stItems jobId vision st)

def itmOf (jobId : Nat) (sess : String) (mode : Mode) (market : String → Option MarketItem)
    (vision : List (Except String (List (String × Int)))) (st : MemStorage) :
    List MemStorage × MemStorage :=
  itemLoop jobId sess mode market (countsOf jobId vision st) 0 (stMsg jobId vision st)

def stDone (jobId : Nat) (sess : String) (mode : Mode) (market : String → Option MarketItem)
    (vision : List (Except String (List (String × Int)))) (st : MemStorage) : MemStorage :=
  updateProcessingJob jobId { status := some JobStatus.completed }
    (itmOf jobId sess mode market vision st).2

def stFinal (jobId : Nat) (sess : String) (mode : Mode) (market : String → Option MarketItem)
    (vision : List (Except String (List (String × Int)))) (st : MemStorage) : MemStorage :=
  addProcessingLog jobId "Processing completed successfully!"
    (stDone jobId sess mode market vision st)

/-- Observed status of the job with the given id. -/
def statusAt (jobId : Nat) (s : MemStorage) : Option JobStatus :=
  (getProcessingJob jobId s).map (fun x => x.status)

/-- The two counter bounds a poller must always observe (claim C5). -/
def CountersOK (jobId : Nat) (s : MemStorage) : Prop :=
  ∀ j2, getProcessingJob jobId s = some j2 →
    j2.processedImages ≤ j2.totalImages ∧ j2.processedItems ≤ j2.totalItems

/-- The job record the image-submission routes create (`routes.ts`). -/
def routeInsertJob (vision : List (Except String (List (String × Int)))) : InsertJob :=
  { status := some .processing, totalImages := some vision.length,
    processedImages := some 0, totalItems := some 0, processedItems := some 0,
    logs := [] }

/-! ### Generic helper lemmas -/

theorem find?_map_pres {α : Type} (g : α → α) (p : α → Bool) (h : ∀ x, p (g x) = p x) :
    ∀ l : List α, (l.map g).find? p = (l.find? p).map g := by
  intro l
  induction l with
  | nil => rfl
  | cons x xs ih =>
    by_cases hp : p x = true
    · simp [List.find?_cons_of_pos, hp, (h x).trans hp]
    · have hp2 : p x = false := by simpa using hp
      have : p (g x) = false := (h x).trans hp2
      simp [List.find?_cons_of_neg, hp2, this, ih]

/-! ### Frame lemmas for the storage operations -/

theorem sessionInventory_modifyJob (sess : String) (id : Nat)
    (f : ProcessingJob → ProcessingJob) (st : MemStorage) :
    sessionInventory sess (modifyJob id f st) = sessionInventory sess st := rfl

theorem sessionInventory_updateJob (sess : String) (id : Nat) (p : JobPatch) (st : MemStorage) :
    sessionInventory sess (updateProcessingJob id p st) = sessionInventory sess st := rfl

theorem sessionInventory_addLog (sess : String) (id : Nat) (m : String) (st : MemStorage) :
    sessionInventory sess (addProcessingLog id m st) = sessionInventory sess st := rfl

theorem sessionInventory_createJob (sess : String) (f : InsertJob) (st : MemStorage) :
    sessionInventory sess (createProcessingJob f st).2 = sessionInventory sess st := rfl

theorem sessionInventory_set (sess : String) (inv : List InventoryItem) (st : MemStorage) :
    sessionInventory sess (setSessionInventory sess inv st) = inv := by
  unfold sessionInventory setSessionInventory
  by_cases h : (st.inventoryItems.find? (fun e => e.1 = sess)).isSome
  · simp only [h, if_true]
    have hpres : ∀ e : String × List InventoryItem,
        (fun e : String × List InventoryItem => decide (e.1 = sess))
          ((fun e : String × List InventoryItem => if e.1 = sess then (e.1, inv) else e) e)
        = (fun e : String × List InventoryItem => decide (e.1 = sess)) e := by
      intro e
      by_cases he : e.1 = sess <;> simp [he]
    rw [find?_map_pres _ _ hpres]
    obtain ⟨e, he⟩ := Option.isSome_iff_exists.mp h
    have hesess : e.1 = sess := by simpa using List.find?_some he
    simp [he, hesess]
  · have hnone : st.inventoryItems.find? (fun e => e.1 = sess) = none := by
      cases hf : st.inventoryItems.find? (fun e => e.1 = sess) with
      | none => rfl
      | some e => rw [hf] at h; simp at h
    simp [hnone, List.find?_append, List.find?]

theorem getJob_setInv (i : Nat) (sess : String) (inv : List InventoryItem) (st : MemStorage) :
    getProcessingJob i (setSessionInventory sess inv st) = getProcessingJob i st := by
  unfold getProcessingJob setSessionInventory
  by_cases h : (st.inventoryItems.find? (fun e => e.1 = sess)).isSome <;> simp [h]

theorem getJob_createItem (i : Nat) (sess : String) (f : InsertItem) (st : MemStorage) :
    getProcessingJob i (createInventoryItem sess f st).2 = getProcessingJob i st := by
  unfold createInventoryItem
  simp only []
  exact getJob_setInv i sess _ st

theorem getJob_updateQty (i : Nat) (sess : String) (id : Nat) (q : Int)
    (st st1 : MemStorage) (h : updateInventoryItemQuantity sess id q st = .ok st1) :
    getProcessingJob i st1 = getProcessingJob i st := by
  unfold updateInventoryItemQuantity at h
  cases hf : (sessionInventory sess st).find? (fun it => it.id = id) with
  | none => rw [hf] at h; cases h
  | some w =>
    rw [hf] at h
    cases h
    exact getJob_setInv i sess _ st

theorem getJob_modify_self (i : Nat) (f : ProcessingJob → ProcessingJob)
    (hf : ∀ j, (f j).id = j.id) (st : MemStorage) :
    getProcessingJob i (modifyJob i f st) = (getProcessingJob i st).map f := by
  unfold getProcessingJob modifyJob
  have hpres : ∀ j : ProcessingJob,
      (fun j : ProcessingJob => decide (j.id = i))
        ((fun j : ProcessingJob => if j.id = i then f j else j) j)
      = (fun j : ProcessingJob => decide (j.id = i)) j := by
    intro j
    by_cases hj : j.id = i <;> simp [hj, hf j]
  rw [find?_map_pres _ _ hpres]
  cases hg : st.processingJobs.find? (fun j => j.id = i) with
  | none => rfl
  | some j0 =>
    have : j0.id = i := by simpa using List.find?_some hg
    simp [this]

theorem getJob_update (i : Nat) (p : JobPatch) (st : MemStorage) :
    getProcessingJob i (updateProcessingJob i p st)
      = (getProcessingJob i st).map (fun j => applyPatch j p) := by
  unfold updateProcessingJob
  exact getJob_modify_self i (fun j => applyPatch j p) (fun j => rfl) st

theorem getJob_addLog (i : Nat) (m : String) (st : MemStorage) :
    getProcessingJob i (addProcessingLog i m st)
      = (getProcessingJob i st).map (fun j => { j with logs := j.logs ++ [m] }) := by
  unfold addProcessingLog
  exact getJob_modify_self i (fun j => { j with logs := j.logs ++ [m] }) (fun j => rfl) st

theorem getJob_create_fresh (f : InsertJob) (st : MemStorage) (hfresh : JobIdsFresh st) :
    getProcessingJob (createProcessingJob f st).1.id (createProcessingJob f st).2
      = some (createProcessingJob f st).1 := by
  unfold createProcessingJob getProcessingJob
  simp only []
  rw [List.find?_append]
  have hnone : st.processingJobs.find? (fun j => j.id = st.nextId) = none := by
    rw [List.find?_eq_none]
    intro j hj
    have := hfresh j hj
    simp
    omega
  rw [hnone]
  simp [List.find?]

/-! ### Character-level lemmas -/

theorem toNat_ofNat_valid (n : Nat) (h : n < 55296) : (Char.ofNat n).toNat = n := by
  have hv : n.isValidChar := Or.inl h
  simp [Char.ofNat, hv, Char.ofNatAux, Char.toNat, UInt32.toNat, Nat.toUInt32]

theorem char_eq_iff (a b : Char) : a = b ↔ a.toNat = b.toNat := by
  constructor
  · intro h; rw [h]
  · intro h; exact Char.ext (UInt32.ext h)

theorem char_le_iff (a b : Char) : a ≤ b ↔ a.toNat ≤ b.toNat := Iff.rfl

theorem jsCharLower_toNat (c : Char) : (jsCharLower c).toNat =
    if 65 ≤ c.toNat ∧ c.toNat ≤ 90 then c.toNat + 32
    else if 1040 ≤ c.toNat ∧ c.toNat ≤ 1071 then c.toNat + 32
    else if c.toNat = 1025 then 1105
    else c.toNat := by
  unfold jsCharLower
  have e1 : ('A' ≤ c ∧ c ≤ 'Z') ↔ (65 ≤ c.toNat ∧ c.toNat ≤ 90) := Iff.rfl
  have e2 : (Char.ofNat 1040 ≤ c ∧ c ≤ Char.ofNat 1071) ↔ (1040 ≤ c.toNat ∧ c.toNat ≤ 1071) := by
    rw [char_le_iff, char_le_iff, toNat_ofNat_valid 1040 (by norm_num),
      toNat_ofNat_valid 1071 (by norm_num)]
  have e3 : (c = Char.ofNat 1025) ↔ (c.toNat = 1025) := by
    rw [char_eq_iff, toNat_ofNat_valid 1025 (by norm_num)]
  rw [if_congr e1 rfl rfl, if_congr e2 rfl rfl, if_congr e3 rfl rfl]
  split_ifs with h1 h2 h3
  · exact toNat_ofNat_valid _ (by omega)
  · exact toNat_ofNat_valid _ (by omega)
  · exact toNat_ofNat_valid _ (by norm_num)
  · rfl

theorem jsIsSpace_iff (c : Char) : jsIsSpace c = true ↔
    (c.toNat = 32 ∨ c.toNat = 9 ∨ c.toNat = 10 ∨ c.toNat = 13 ∨ c.toNat = 11 ∨ c.toNat = 12) := by
  unfold jsIsSpace
  simp only [Bool.or_eq_true, decide_eq_true_eq]
  rw [char_eq_iff, char_eq_iff, char_eq_iff, char_eq_iff, char_eq_iff, char_eq_iff]
  norm_num [toNat_ofNat_valid]
  tauto

theorem jsIsSpace_lower (c : Char) : jsIsSpace (jsCharLower c) = jsIsSpace c := by
  have h := jsCharLower_toNat c
  rw [Bool.eq_iff_iff, jsIsSpace_iff, jsIsSpace_iff]
  split_ifs at h <;> omega

theorem jsCharLower_eq_colon (c : Char) : jsCharLower c = ':' ↔ c = ':' := by
  have h := jsCharLower_toNat c
  rw [char_eq_iff, char_eq_iff]
  have h58 : (':' : Char).toNat = 58 := rfl
  rw [h58]
  split_ifs at h <;> omega

/-! ### Structural lemmas about the normaliser's passes -/

theorem plainChars_map_lower {cs : List Char} (h : PlainChars cs) :
    PlainChars (cs.map jsCharLower) := by
  intro c hc
  obtain ⟨d, hd, rfl⟩ := List.mem_map.mp hc
  obtain ⟨hds, hdc⟩ := h d hd
  refine ⟨(jsIsSpace_lower d).trans hds, ?_⟩
  intro hcol
  exact hdc ((jsCharLower_eq_colon d).mp hcol)

theorem mem_replaceFirstChar {t r c : Char} :
    ∀ {cs : List Char}, c ∈ replaceFirstChar t r cs → c ∈ cs ∨ c = r := by
  intro cs
  induction cs with
  | nil => intro h; simp [replaceFirstChar] at h
  | cons x xs ih =>
    intro h
    by_cases hx : x = t
    · simp [replaceFirstChar, hx] at h
      rcases h with h | h
      · exact Or.inr h
      · exact Or.inl (List.mem_cons_of_mem _ h)
    · simp [replaceFirstChar, hx] at h
      rcases h with h | h
      · exact Or.inl (by simp [h])
      · rcases ih h with h2 | h2
        · exact Or.inl (List.mem_cons_of_mem _ h2)
        · exact Or.inr h2

theorem plainChars_replaceFirst {t r : Char} (hr : jsIsSpace r = false ∧ r ≠ ':')
    {cs : List Char} (h : PlainChars cs) : PlainChars (replaceFirstChar t r cs) := by
  intro c hc
  rcases mem_replaceFirstChar hc with h2 | h2
  · exact h c h2
  · exact h2 ▸ hr

theorem replaceFirstChar_ne_nil {t r : Char} {cs : List Char} (h : cs ≠ []) :
    replaceFirstChar t r cs ≠ [] := by
  cases cs with
  | nil => exact absurd rfl h
  | cons x xs => by_cases hx : x = t <;> simp [replaceFirstChar, hx]

theorem replaceFirstChar_cons_ne (t r x : Char) (hx : x ≠ t) (xs : List Char) :
    replaceFirstChar t r (x :: xs) = x :: replaceFirstChar t r xs := by
  simp [replaceFirstChar, hx]

theorem replaceFirstChar_append (t r : Char) (xs ys : List Char) :
    replaceFirstChar t r (xs ++ ys) =
      if t ∈ xs then replaceFirstChar t r xs ++ ys
      else xs ++ replaceFirstChar t r ys := by
  induction xs with
  | nil => simp [replaceFirstChar]
  | cons x xs ih =>
    by_cases hx : x = t
    · simp [replaceFirstChar, hx]
    · rw [List.cons_append, replaceFirstChar_cons_ne t r x hx, ih]
      by_cases hin : t ∈ xs
      · rw [if_pos hin, if_pos (List.mem_cons_of_mem _ hin),
          replaceFirstChar_cons_ne t r x hx, List.cons_append]
      · have hnin : t ∉ x :: xs := by
          intro h2
          rcases List.mem_cons.mp h2 with h3 | h3
          · exact hx h3.symm
          · exact hin h3
        rw [if_neg hin, if_neg hnin, List.cons_append]

theorem dropWhile_eq_self_of_head {p : Char → Bool} :
    ∀ {cs : List Char}, (∀ c, cs.head? = some c → p c = false) → cs.dropWhile p = cs := by
  intro cs h
  cases cs with
  | nil => rfl
  | cons x xs =>
    have := h x rfl
    simp [List.dropWhile, this]

theorem dropWhile_plain {cs : List Char} (h : PlainChars cs) :
    cs.dropWhile jsIsSpace = cs := by
  cases cs with
  | nil => rfl
  | cons x xs =>
    have hx := (h x (by simp)).1
    simp [List.dropWhile, hx]

theorem jsTrimChars_eq_self {cs : List Char}
    (hh : ∀ c, cs.head? = some c → jsIsSpace c = false)
    (hl : ∀ c, cs.getLast? = some c → jsIsSpace c = false) :
    jsTrimChars cs = cs := by
  unfold jsTrimChars dropTrailing
  rw [dropWhile_eq_self_of_head hh]
  rw [dropWhile_eq_self_of_head (by simpa [List.head?_reverse] using hl)]
  exact List.reverse_reverse cs

theorem colonSpaceFix_cons_none (c : Char) (rest : List Char)
    (hw : wsThenColon (c :: rest) = none) :
    colonSpaceFix (c :: rest) = c :: colonSpaceFix rest := by
  simp [colonSpaceFix, hw]

theorem colonSpaceFix_append_plain {A : List Char} (h : PlainChars A) (rest : List Char) :
    colonSpaceFix (A ++ rest) = A ++ colonSpaceFix rest := by
  induction A with
  | nil => rfl
  | cons x xs ih =>
    obtain ⟨hxs, hxc⟩ := h x (by simp)
    have hw : wsThenColon (x :: (xs ++ rest)) = none := by
      simp [wsThenColon, hxc, hxs]
    rw [List.cons_append, colonSpaceFix_cons_none x (xs ++ rest) hw,
      ih (fun c hc => h c (by simp [hc])), List.cons_append]

theorem wsThenColon_cons_colon (rest : List Char) : wsThenColon (':' :: rest) = some rest := by
  simp [wsThenColon]

theorem wsThenColon_cons_space (x : Char) (hx : jsIsSpace x = true) (hxc : x ≠ ':')
    (rest : List Char) : wsThenColon (x :: rest) = wsThenColon rest := by
  simp [wsThenColon, hxc, hx]

theorem colonSpaceFix_cons_colon (rest : List Char) :
    colonSpaceFix (':' :: rest) = ':' :: ' ' :: rest.dropWhile jsIsSpace := by
  simp [colonSpaceFix, wsThenColon_cons_colon]

theorem colonSpaceFix_cons_some (c : Char) (rest after : List Char)
    (hw : wsThenColon (c :: rest) = some after) :
    colonSpaceFix (c :: rest) = ':' :: ' ' :: after.dropWhile jsIsSpace := by
  simp [colonSpaceFix, hw]

theorem dropWhile_append_head {A : List Char} (h : PlainChars A) (hne : A ≠ [])
    (rest : List Char) : (A ++ rest).dropWhile jsIsSpace = A ++ rest := by
  cases A with
  | nil => exact absurd rfl hne
  | cons x xs =>
    have hx := (h x (by simp)).1
    simp [List.dropWhile, hx]

theorem getLast?_plain {B : List Char} (h : PlainChars B) (_hne : B ≠ []) :
    ∀ c, B.getLast? = some c → jsIsSpace c = false := by
  intro c hc
  have hmem : c ∈ B := List.mem_of_mem_getLast? hc
  exact (h c hmem).1

theorem getLast?_cons_ne (c : Char) (l : List Char) (h : l ≠ []) :
    (c :: l).getLast? = l.getLast? := by
  cases l with
  | nil => exact absurd rfl h
  | cons x xs => simp [List.getLast?_cons_cons]

/-- Core of the colon-standardisation property: after the lowering and
yo-replacement passes produced `A1`/`B1`, the remaining trim, colon and
whitespace passes treat `A1 ++ ":" ++ B1` and `A1 ++ " :  " ++ B1`
identically. -/
theorem colon_tail_eq {A1 B1 : List Char} (hA : PlainChars A1) (hB : PlainChars B1)
    (hne : A1 ≠ []) :
    wsCollapseFirst (colonSpaceFix (jsTrimChars (A1 ++ ':' :: B1))) =
      wsCollapseFirst (colonSpaceFix (jsTrimChars (A1 ++ ' ' :: ':' :: ' ' :: ' ' :: B1))) := by
  have hsp : jsIsSpace ' ' = true := by decide
  have hcol : jsIsSpace ':' = false := by decide
  have hheadA : ∀ rest : List Char, ∀ c, (A1 ++ rest).head? = some c → jsIsSpace c = false := by
    intro rest c hc
    cases A1 with
    | nil => exact absurd rfl hne
    | cons x xs =>
      simp at hc
      exact hc ▸ (hA x (by simp)).1
  by_cases hBnil : B1 = []
  · subst hBnil
    have trim1 : jsTrimChars (A1 ++ [':']) = A1 ++ [':'] := by
      apply jsTrimChars_eq_self (hheadA [':'])
      intro c hc
      rw [List.getLast?_concat] at hc
      injection hc with h
      exact h ▸ hcol
    have trim2 : jsTrimChars (A1 ++ [' ', ':', ' ', ' ']) = A1 ++ [' ', ':'] := by
      show dropTrailing jsIsSpace ((A1 ++ [' ', ':', ' ', ' ']).dropWhile jsIsSpace)
          = A1 ++ [' ', ':']
      rw [dropWhile_append_head hA hne]
      show (((A1 ++ [' ', ':', ' ', ' ']).reverse.dropWhile jsIsSpace)).reverse
          = A1 ++ [' ', ':']
      rw [List.reverse_append]
      have hrev : ([' ', ':', ' ', ' '] : List Char).reverse = [' ', ' ', ':', ' '] := by decide
      rw [hrev]
      have hd : (([' ', ' ', ':', ' '] : List Char) ++ A1.reverse).dropWhile jsIsSpace
          = ([':', ' '] : List Char) ++ A1.reverse := by
        simp [List.dropWhile, hsp, hcol]
      rw [hd, List.reverse_append, List.reverse_reverse]
      rfl
    rw [trim1, trim2]
    rw [colonSpaceFix_append_plain hA, colonSpaceFix_append_plain hA]
    have c1 : colonSpaceFix [':'] = [':', ' '] := by decide
    have c2 : colonSpaceFix [' ', ':'] = [':', ' '] := by decide
    rw [c1, c2]
  · have hlastB : ∀ c, B1.getLast? = some c → jsIsSpace c = false := getLast?_plain hB hBnil
    have trim1 : jsTrimChars (A1 ++ ':' :: B1) = A1 ++ ':' :: B1 := by
      apply jsTrimChars_eq_self (hheadA (':' :: B1))
      intro c hc
      rw [List.getLast?_append_of_ne_nil _ (by simp)] at hc
      rw [getLast?_cons_ne ':' B1 hBnil] at hc
      exact hlastB c hc
    have trim2 : jsTrimChars (A1 ++ ' ' :: ':' :: ' ' :: ' ' :: B1)
        = A1 ++ ' ' :: ':' :: ' ' :: ' ' :: B1 := by
      apply jsTrimChars_eq_self (hheadA _)
      intro c hc
      rw [List.getLast?_append_of_ne_nil _ (by simp)] at hc
      rw [getLast?_cons_ne _ _ (by simp), getLast?_cons_ne _ _ (by simp),
        getLast?_cons_ne _ _ (by simp), getLast?_cons_ne _ _ hBnil] at hc
      exact hlastB c hc
    rw [trim1, trim2]
    rw [colonSpaceFix_append_plain hA, colonSpaceFix_append_plain hA]
    rw [colonSpaceFix_cons_colon B1]
    have hw2 : wsThenColon (' ' :: ':' :: ' ' :: ' ' :: B1) = some (' ' :: ' ' :: B1) := by
      rw [wsThenColon_cons_space ' ' (by decide) (by decide)]
      exact wsThenColon_cons_colon _
    rw [colonSpaceFix_cons_some ' ' _ _ hw2]
    have hd2 : (' ' :: ' ' :: B1).dropWhile jsIsSpace = B1.dropWhile jsIsSpace := by
      simp [List.dropWhile, hsp]
    rw [hd2, dropWhile_plain hB]

/-- C9 (counterexample): `normalizeString` does not collapse *all*
internal whitespace runs — the regex `/\s+/` has no `g` flag, so only
the first run collapses: "a  b  c" normalises to "a b  c", not
"a b c". -/
theorem claim_C9_counterexample :
    normalizeString "a  b  c" = "a b  c" ∧ normalizeString "a  b  c" ≠ "a b c" := by
  constructor <;> decide

/-- C9 (amended): the Name Normalizer is a pure total function that
lowercases, maps the first Cyrillic yo to ye, trims, standardises the
spacing around the *first* colon to ": " and collapses only the *first*
internal whitespace run; the empty string maps to itself, and
"Name:Part" and "Name :  Part" (generally: any colon written with or
without surrounding whitespace between whitespace-free, colon-free
words) normalise identically. -/
theorem claim_C9_amended :
    normalizeString "" = "" ∧
    ∀ a b : String, a ≠ "" →
      (∀ c ∈ a.data, jsIsSpace c = false ∧ c ≠ ':') →
      (∀ c ∈ b.data, jsIsSpace c = false ∧ c ≠ ':') →
      normalizeString (a ++ ":" ++ b) = normalizeString (a ++ " :  " ++ b) := by
  refine ⟨rfl, ?_⟩
  intro a b ha hpa hpb
  have hda : a.data ≠ [] := by
    intro h
    exact ha (String.ext h)
  have hdata1 : (a ++ ":" ++ b).data = a.data ++ ':' :: b.data := by
    show a.data ++ (":" : String).data ++ b.data = a.data ++ ':' :: b.data
    simp
  have hdata2 : (a ++ " :  " ++ b).data
      = a.data ++ ' ' :: ':' :: ' ' :: ' ' :: b.data := by
    show a.data ++ (" :  " : String).data ++ b.data = _
    simp
  have hne1 : a ++ ":" ++ b ≠ "" := by
    intro h
    have h2 : (a ++ ":" ++ b).data = [] := by rw [h]
    rw [hdata1] at h2
    simp at h2
  have hne2 : a ++ " :  " ++ b ≠ "" := by
    intro h
    have h2 : (a ++ " :  " ++ b).data = [] := by rw [h]
    rw [hdata2] at h2
    simp at h2
  have e1 : (jsToLower (a ++ ":" ++ b)).data
      = (a.data.map jsCharLower) ++ ':' :: (b.data.map jsCharLower) := by
    show ((a ++ ":" ++ b).data.map jsCharLower) = _
    rw [hdata1, List.map_append, List.map_cons]
    have hc : jsCharLower ':' = ':' := by decide
    rw [hc]
  have e2 : (jsToLower (a ++ " :  " ++ b)).data
      = (a.data.map jsCharLower) ++ ' ' :: ':' :: ' ' :: ' ' :: (b.data.map jsCharLower) := by
    show ((a ++ " :  " ++ b).data.map jsCharLower) = _
    rw [hdata2, List.map_append, List.map_cons, List.map_cons, List.map_cons, List.map_cons]
    have hc : jsCharLower ':' = ':' := by decide
    have hs : jsCharLower ' ' = ' ' := by decide
    rw [hc, hs]
  have hApl : PlainChars (a.data.map jsCharLower) := plainChars_map_lower hpa
  have hBpl : PlainChars (b.data.map jsCharLower) := plainChars_map_lower hpb
  have hAne : (a.data.map jsCharLower) ≠ [] := by
    intro h
    exact hda (List.map_eq_nil_iff.mp h)
  unfold normalizeString
  rw [if_neg hne1, if_neg hne2, e1, e2]
  refine congrArg String.mk ?_
  rw [replaceFirstChar_append, replaceFirstChar_append]
  by_cases hin : (Char.ofNat 0x451) ∈ a.data.map jsCharLower
  · rw [if_pos hin, if_pos hin]
    exact colon_tail_eq (plainChars_replaceFirst (by decide) hApl) hBpl
      (replaceFirstChar_ne_nil hAne)
  · rw [if_neg hin, if_neg hin]
    rw [replaceFirstChar_cons_ne _ _ _ (by decide)]
    rw [replaceFirstChar_cons_ne _ _ _ (by decide), replaceFirstChar_cons_ne _ _ _ (by decide),
      replaceFirstChar_cons_ne _ _ _ (by decide), replaceFirstChar_cons_ne _ _ _ (by decide)]
    exact colon_tail_eq hApl (plainChars_replaceFirst (by decide) hBpl) hAne

/-- C9 (witness): the amended theorem applied at the specification's
own example. -/
theorem claim_C9_witness :
    normalizeString "" = "" ∧ normalizeString "Name:Part" = normalizeString "Name :  Part" := by
  obtain ⟨h1, h2⟩ := claim_C9_amended
  exact ⟨h1, h2 "Name" "Part" (by decide) (by decide) (by decide)⟩

/-! ### Claim C2: findByName and name normalisation -/

theorem sessionInventory_createItem (sess : String) (f : InsertItem) (st : MemStorage) :
    sessionInventory sess (createInventoryItem sess f st).2
      = sessionInventory sess st ++ [(createInventoryItem sess f st).1] := by
  unfold createInventoryItem
  exact sessionInventory_set sess _ st

/-- C2 (counterexample): `findInventoryItemByName` compares names only
by `toLowerCase().trim()`, not by the Name Normalizer's rule: after
creating "Foo: Bar", searching "foo:bar" (no space around the colon)
does **not** find it. -/
theorem claim_C2_counterexample :
    findInventoryItemByName "s" "foo:bar"
      (createInventoryItem "s" { name := "Foo: Bar" } emptyStorage).2 = none := by
  decide

/-- C2 (amended): `findInventoryItemByName` is insensitive to case and
to leading/trailing whitespace only (it compares
`name.toLowerCase().trim()` on both sides): after creating an item,
every query that agrees with the stored name up to lowercasing and
trimming is matched to a record that also agrees with the query under
that same equivalence (the first such record wins).  Internal
whitespace and colon spacing are *not* normalised, so "foo:bar" does
not match "Foo: Bar". -/
theorem claim_C2_amended (sess : String) (f : InsertItem) (q : String) (st : MemStorage)
    (hq : lowerTrimEq f.name q = true) :
    ∃ found, findInventoryItemByName sess q (createInventoryItem sess f st).2 = some found
      ∧ lowerTrimEq found.name q = true := by
  unfold findInventoryItemByName
  rw [sessionInventory_createItem, List.find?_append]
  cases hf : (sessionInventory sess st).find? (fun it => lowerTrimEq it.name q) with
  | some w =>
    refine ⟨w, ?_, ?_⟩
    · simp
    · simpa using List.find?_some hf
  | none =>
    refine ⟨(createInventoryItem sess f st).1, ?_, ?_⟩
    · have hname : (createInventoryItem sess f st).1.name = f.name := rfl
      simp [List.find?, hname, hq]
    · exact hq

/-- C2 (witness): the amended theorem at a concrete store — creating
"Foo: Bar" and searching with different case and edge whitespace. -/
theorem claim_C2_witness :
    ∃ found, findInventoryItemByName "s" " FOO: BAR "
        (createInventoryItem "s" { name := "Foo: Bar" } emptyStorage).2 = some found
      ∧ lowerTrimEq found.name " FOO: BAR " = true :=
  claim_C2_amended "s" { name := "Foo: Bar" } " FOO: BAR " emptyStorage (by decide)

/-! ### Claim C8: quantity last-write-wins -/

theorem getItem_create (sess : String) (f : InsertItem) (st : MemStorage) (id : Nat)
    (hfresh : ItemIdsFresh sess st) :
    getInventoryItem sess id (createInventoryItem sess f st).2
      = if st.nextId = id then some (createInventoryItem sess f st).1
        else getInventoryItem sess id st := by
  unfold getInventoryItem
  rw [sessionInventory_createItem, List.find?_append]
  by_cases hid : st.nextId = id
  · subst hid
    have hnone : (sessionInventory sess st).find? (fun it => it.id = st.nextId) = none := by
      rw [List.find?_eq_none]
      intro it hit
      have := hfresh it hit
      simp
      omega
    rw [hnone]
    have hself : (createInventoryItem sess f st).1.id = st.nextId := rfl
    simp [List.find?, hself]
  · rw [if_neg hid]
    cases hf : (sessionInventory sess st).find? (fun it => it.id = id) with
    | some w => simp
    | none =>
      have hself : (createInventoryItem sess f st).1.id = st.nextId := rfl
      simp [List.find?, hself, hid]

theorem updateQty_ok_iff (sess : String) (tid : Nat) (q : Int) (st : MemStorage) :
    (∃ st1, updateInventoryItemQuantity sess tid q st = .ok st1) ↔
      ((sessionInventory sess st).find? (fun it => it.id = tid)).isSome := by
  unfold updateInventoryItemQuantity
  cases hf : (sessionInventory sess st).find? (fun it => it.id = tid) <;> simp

theorem getItem_updateQty_ok (sess : String) (tid : Nat) (q : Int) (st st1 : MemStorage)
    (id : Nat) (h : updateInventoryItemQuantity sess tid q st = .ok st1) :
    getInventoryItem sess id st1
      = (getInventoryItem sess id st).map
          (fun it => if it.id = tid then { it with quantity := q } else it) := by
  unfold updateInventoryItemQuantity at h
  cases hf : (sessionInventory sess st).find? (fun it => it.id = tid) with
  | none => rw [hf] at h; cases h
  | some w =>
    rw [hf] at h
    cases h
    unfold getInventoryItem
    rw [sessionInventory_set]
    apply find?_map_pres
    intro it
    by_cases hit : it.id = tid <;> simp [hit]

theorem nextId_updateQty_ok (sess : String) (tid : Nat) (q : Int) (st st1 : MemStorage)
    (h : updateInventoryItemQuantity sess tid q st = .ok st1) : st1.nextId = st.nextId := by
  unfold updateInventoryItemQuantity at h
  cases hf : (sessionInventory sess st).find? (fun it => it.id = tid) with
  | none => rw [hf] at h; cases h
  | some w =>
    rw [hf] at h
    cases h
    unfold setSessionInventory
    by_cases hs : ((st.inventoryItems.find? (fun e => e.1 = sess)).isSome : Prop) <;> simp [hs]

theorem itemIdsFresh_create (sess : String) (f : InsertItem) (st : MemStorage)
    (h : ItemIdsFresh sess st) : ItemIdsFresh sess (createInventoryItem sess f st).2 := by
  intro it hit
  rw [sessionInventory_createItem] at hit
  have hnext : (createInventoryItem sess f st).2.nextId = st.nextId + 1 := by
    unfold createInventoryItem setSessionInventory
    by_cases hs : ((st.inventoryItems.find? (fun e => e.1 = sess)).isSome : Prop) <;> simp [hs]
  rw [hnext]
  rcases List.mem_append.mp hit with h2 | h2
  · have := h it h2
    omega
  · have : it = (createInventoryItem sess f st).1 := by simpa using h2
    rw [this]
    have hid2 : (createInventoryItem sess f st).1.id = st.nextId := rfl
    omega

theorem itemIdsFresh_updateQty (sess : String) (tid : Nat) (q : Int) (st st1 : MemStorage)
    (hok : updateInventoryItemQuantity sess tid q st = .ok st1)
    (h : ItemIdsFresh sess st) : ItemIdsFresh sess st1 := by
  intro it hit
  unfold updateInventoryItemQuantity at hok
  cases hf : (sessionInventory sess st).find? (fun it => it.id = tid) with
  | none => rw [hf] at hok; cases hok
  | some w =>
    rw [hf] at hok
    cases hok
    rw [sessionInventory_set] at hit
    rw [nextId_updateQty_ok sess tid q st _ (by unfold updateInventoryItemQuantity; rw [hf])]
    obtain ⟨u, hu, rfl⟩ := List.mem_map.mp hit
    have hub := h u hu
    by_cases hu2 : u.id = tid <;> simp [hu2] <;> omega

theorem runOps_quantity (sess : String) :
    ∀ (ops : List StoreOp) (st : MemStorage) (id : Nat), ItemIdsFresh sess st →
      (getInventoryItem sess id (runOps sess ops st)).map (fun it => it.quantity)
        = specLastSet st.nextId id ops
            ((getInventoryItem sess id st).map (fun it => it.quantity)) := by
  intro ops
  induction ops with
  | nil => intro st id hfresh; rfl
  | cons op rest ih =>
    intro st id hfresh
    cases op with
    | create f =>
      show (getInventoryItem sess id (runOps sess rest (createInventoryItem sess f st).2)).map _
          = specLastSet (st.nextId + 1) id rest _
      have hnext : (createInventoryItem sess f st).2.nextId = st.nextId + 1 := by
        unfold createInventoryItem setSessionInventory
        by_cases hs : ((st.inventoryItems.find? (fun e => e.1 = sess)).isSome : Prop) <;>
          simp [hs]
      rw [ih _ id (itemIdsFresh_create sess f st hfresh), hnext]
      congr 1
      rw [getItem_create sess f st id hfresh]
      by_cases hid : st.nextId = id <;> simp [hid]
      rfl
    | updateQty tid q =>
      cases hup : updateInventoryItemQuantity sess tid q st with
      | ok st1 =>
        have hrun : runOps sess (StoreOp.updateQty tid q :: rest) st = runOps sess rest st1 := by
          show (match updateInventoryItemQuantity sess tid q st with
                 | .ok s => runOps sess rest s
                 | .error _ => runOps sess rest st) = runOps sess rest st1
          rw [hup]
        rw [hrun, ih st1 id (itemIdsFresh_updateQty sess tid q st st1 hup hfresh)]
        show specLastSet st1.nextId id rest _ = specLastSet st.nextId id rest _
        rw [nextId_updateQty_ok sess tid q st st1 hup]
        congr 1
        rw [getItem_updateQty_ok sess tid q st st1 id hup]
        cases hcur : getInventoryItem sess id st with
        | none => simp
        | some u =>
          have huid : u.id = id := by
            unfold getInventoryItem at hcur
            simpa using List.find?_some hcur
          by_cases hid : tid = id
          · subst hid
            simp [huid]
          · have hne2 : ¬ u.id = tid := by
              rw [huid]
              exact fun h => hid h.symm
            simp [hne2, hid]
      | error e =>
        have hrun : runOps sess (StoreOp.updateQty tid q :: rest) st = runOps sess rest st := by
          show (match updateInventoryItemQuantity sess tid q st with
                 | .ok s => runOps sess rest s
                 | .error _ => runOps sess rest st) = runOps sess rest st
          rw [hup]
        rw [hrun, ih st id hfresh]
        show specLastSet st.nextId id rest _ = specLastSet st.nextId id rest _
        congr 1
        have hnone : (sessionInventory sess st).find? (fun it => it.id = tid) = none := by
          cases hf : (sessionInventory sess st).find? (fun it => it.id = tid) with
          | none => rfl
          | some w =>
            exfalso
            have hsome : ((sessionInventory sess st).find? (fun it => it.id = tid)).isSome := by
              rw [hf]; rfl
            obtain ⟨s1, hs1⟩ := (updateQty_ok_iff sess tid q st).mpr hsome
            rw [hup] at hs1
            cases hs1
        by_cases hid : tid = id
        · subst hid
          have hcn : getInventoryItem sess tid st = none := hnone
          simp [hcn]
        · simp [hid]

theorem specLastSet_nonneg :
    ∀ (ops : List StoreOp) (nextId id : Nat) (cur : Option Int), OpsNonNeg ops →
      (∀ v, cur = some v → 0 ≤ v) →
      ∀ q, specLastSet nextId id ops cur = some q → 0 ≤ q := by
  intro ops
  induction ops with
  | nil =>
    intro nextId id cur hops hcur q hq
    exact hcur q hq
  | cons op rest ih =>
    intro nextId id cur hops hcur q hq
    have hoptail : OpsNonNeg rest := fun o ho => hops o (List.mem_cons_of_mem _ ho)
    cases op with
    | create f =>
      refine ih (nextId + 1) id _ hoptail ?_ q hq
      intro v hv
      by_cases hid : nextId = id
      · simp [hid] at hv
        have := hops (.create f) (by simp)
        simp at this
        omega
      · simp [hid] at hv
        exact hcur v hv
    | updateQty tid qq =>
      refine ih nextId id _ hoptail ?_ q hq
      intro v hv
      by_cases hc : tid = id ∧ cur.isSome = true
      · simp [hc] at hv
        have := hops (.updateQty tid qq) (by simp)
        simp at this
        omega
      · simp [hc] at hv
        exact hcur v hv

/-- C8 (amended): for every sequence of `create`/`updateQuantity`
operations on one session's store, `get(id).quantity` equals the most
recent value set for that id (the created quantity if never updated) —
and it is never negative **provided** every quantity supplied by the
sequence is non-negative (which the route-level validation guarantees;
the store itself does not re-validate, so a negative update is stored
as given — see the counterexample). -/
theorem claim_C8_amended (sess : String) (ops : List StoreOp) (st : MemStorage) (id : Nat)
    (hfresh : ItemIdsFresh sess st) :
    ((getInventoryItem sess id (runOps sess ops st)).map (fun it => it.quantity)
       = specLastSet st.nextId id ops
           ((getInventoryItem sess id st).map (fun it => it.quantity)))
    ∧ (OpsNonNeg ops → (∀ it ∈ sessionInventory sess st, 0 ≤ it.quantity) →
        ∀ q, (getInventoryItem sess id (runOps sess ops st)).map (fun it => it.quantity)
            = some q → 0 ≤ q) := by
  constructor
  · exact runOps_quantity sess ops st id hfresh
  · intro hops hinit q hq
    rw [runOps_quantity sess ops st id hfresh] at hq
    refine specLastSet_nonneg ops st.nextId id _ hops ?_ q hq
    intro v hv
    cases hcur : getInventoryItem sess id st with
    | none => rw [hcur] at hv; cases hv
    | some u =>
      rw [hcur] at hv
      have hu : u ∈ sessionInventory sess st := by
        unfold getInventoryItem at hcur
        exact List.mem_of_find?_eq_some hcur
      have := hinit u hu
      simp at hv
      omega

/-- C8 (counterexample): the store itself accepts a negative quantity —
after `create` (quantity 1) and `updateQuantity(id, -1)`, `get`
returns quantity -1: "most recent value set" holds but "never
negative" fails at the store's level. -/
theorem claim_C8_counterexample :
    (getInventoryItem "s" 0 (runOps "s"
        [.create { name := "a", quantity := some 1 }, .updateQty 0 (-1)]
        emptyStorage)).map (fun it => it.quantity) = some (-1)
    ∧ ((-1 : Int) < 0) := by
  constructor
  · decide
  · decide

/-- C8 (witness): the amended theorem evaluated on a concrete
sequence: create quantity 2, then update to 5; the final quantity is
the most recent value set. -/
theorem claim_C8_witness :
    (getInventoryItem "s" 0 (runOps "s"
        [.create { name := "a", quantity := some 2 }, .updateQty 0 5]
        emptyStorage)).map (fun it => it.quantity) = some 5 := by
  have h := (claim_C8_amended "s"
    [.create { name := "a", quantity := some 2 }, .updateQty 0 5]
    emptyStorage 0 (by intro it hit; cases hit)).1
  rw [h]
  decide

/-! ### Claims C3 and C10: the price-threshold split -/

theorem length_filter_not {α : Type} (l : List α) (p : α → Bool) :
    (l.filter p).length + (l.filter (fun x => !(p x))).length = l.length := by
  induction l with
  | nil => rfl
  | cons x xs ih =>
    by_cases h : p x = true <;> simp [List.filter_cons, h] <;> omega

theorem count_filter_not {α : Type} [BEq α] [LawfulBEq α] (l : List α) (p : α → Bool) (a : α) :
    (l.filter p).count a + (l.filter (fun x => !(p x))).count a = l.count a := by
  by_cases h : p a = true
  · rw [List.count_filter h]
    have h2 : (l.filter (fun x => !(p x))).count a = 0 := by
      simp [List.count_eq_zero, List.mem_filter, h]
    omega
  · have hb : p a = false := by simpa using h
    have h1 : (l.filter p).count a = 0 := by
      simp [List.count_eq_zero, List.mem_filter, hb]
    have h2 : (l.filter (fun x => !(p x))).count a = l.count a := by
      exact List.count_filter (by simp [hb])
    omega

theorem splitLoop_spec : ∀ (rows : List Row) (acc : SplitResult),
    splitLoop rows acc =
      { lowRows := acc.lowRows ++ rows.filter (fun r => rowPrice r ≤ 10),
        highRows := acc.highRows ++ rows.filter (fun r => !(decide (rowPrice r ≤ 10))),
        lowCount := acc.lowCount + (rows.filter (fun r => rowPrice r ≤ 10)).length,
        highCount := acc.highCount + (rows.filter (fun r => !(decide (rowPrice r ≤ 10)))).length,
        totalRows := acc.totalRows + rows.length } := by
  intro rows
  induction rows with
  | nil => intro acc; simp [splitLoop]
  | cons r rest ih =>
    intro acc
    by_cases hpr : rowPrice r ≤ 10
    · simp only [splitLoop, if_pos hpr, ih, List.filter_cons, decide_eq_true hpr]
      simp [List.append_assoc, Nat.add_assoc, Nat.add_comm 1]
    · simp only [splitLoop, if_neg hpr, ih, List.filter_cons, decide_eq_false hpr]
      simp [List.append_assoc, Nat.add_assoc, Nat.add_comm 1]

/-- C3: the price-threshold split partitions the data rows — every
data row of the source worksheet appears in exactly one of the two
outputs (counting multiplicity), the low output holds exactly the rows
with leading price ≤ 10, the high output exactly those with leading
price ≥ 11, and the two counters sum to the number of data rows. -/
theorem claim_C3 (header : Row) (rows : List Row) :
    (∀ r : Row, ((splitExcelByPrice header rows).lowRows.drop 1).count r
        + ((splitExcelByPrice header rows).highRows.drop 1).count r = rows.count r)
    ∧ (∀ r ∈ (splitExcelByPrice header rows).lowRows.drop 1, rowPrice r ≤ 10)
    ∧ (∀ r ∈ (splitExcelByPrice header rows).highRows.drop 1, 11 ≤ rowPrice r)
    ∧ (splitExcelByPrice header rows).lowCount
        = ((splitExcelByPrice header rows).lowRows.drop 1).length
    ∧ (splitExcelByPrice header rows).highCount
        = ((splitExcelByPrice header rows).highRows.drop 1).length
    ∧ (splitExcelByPrice header rows).lowCount + (splitExcelByPrice header rows).highCount
        = rows.length
    ∧ (splitExcelByPrice header rows).totalRows = rows.length := by
  unfold splitExcelByPrice
  rw [splitLoop_spec]
  refine ⟨?_, ?_, ?_, ?_, ?_, ?_, ?_⟩
  · intro r
    simp only [List.cons_append, List.nil_append, List.drop_succ_cons, List.drop_zero]
    exact count_filter_not rows _ r
  · intro r hr
    simp only [List.cons_append, List.nil_append, List.drop_succ_cons, List.drop_zero] at hr
    have := (List.mem_filter.mp hr).2
    simpa using this
  · intro r hr
    simp only [List.cons_append, List.nil_append, List.drop_succ_cons, List.drop_zero] at hr
    have := (List.mem_filter.mp hr).2
    simp at this
    omega
  · simp
  · simp
  · simpa using length_filter_not rows (fun r => decide (rowPrice r ≤ 10))
  · simp

/-- C3 (witness): a two-row workbook, one row on each side of the
threshold: the cheap row lands in the low output bundle and the two
counters sum to the data-row count. -/
theorem claim_C3_witness :
    rowPrice [Cell.str "n", Cell.num 1, Cell.str "s", Cell.str "7, 9"] ≤ 10
    ∧ (splitExcelByPrice exportHeader
        [[Cell.str "n", Cell.num 1, Cell.str "s", Cell.str "7, 9"],
         [Cell.str "m", Cell.num 1, Cell.str "s", Cell.str "12"]]).lowCount
      + (splitExcelByPrice exportHeader
        [[Cell.str "n", Cell.num 1, Cell.str "s", Cell.str "7, 9"],
         [Cell.str "m", Cell.num 1, Cell.str "s", Cell.str "12"]]).highCount = 2 := by
  have h := claim_C3 exportHeader
    [[Cell.str "n", Cell.num 1, Cell.str "s", Cell.str "7, 9"],
     [Cell.str "m", Cell.num 1, Cell.str "s", Cell.str "12"]]
  exact ⟨h.2.1 _ (by decide), h.2.2.2.2.2.1⟩

/-- C10: a data row whose price cell (column 4) is empty, or a string
not beginning with a decimal digit, is read as leading price 0 and is
therefore routed to the low-price output; the classification is total
(such rows never fail the split). -/
theorem claim_C10 (header : Row) (rows : List Row) (r : Row) (hmem : r ∈ rows)
    (hcell : getCellR 4 r = Cell.empty ∨
      ∃ s, getCellR 4 r = Cell.str s ∧ ∀ c, s.data.head? = some c → isDigitCh c = false) :
    rowPrice r = 0 ∧ r ∈ (splitExcelByPrice header rows).lowRows.drop 1 := by
  have hp : rowPrice r = 0 := by
    unfold rowPrice firstPrice
    rcases hcell with hc | ⟨s, hc, hd⟩
    · rw [hc]; rfl
    · rw [hc]
      by_cases hs : s = ""
      · subst hs; rfl
      · have ht : cellTruthy (Cell.str s) = true := by simp [cellTruthy, hs]
        rw [if_pos ht]
        cases hsd : s.data with
        | nil =>
          exfalso
          exact hs (String.ext hsd)
        | cons c tl =>
          have := hd c (by rw [hsd]; rfl)
          simp [cellToStringOpt, hsd, List.takeWhile, this]
  refine ⟨hp, ?_⟩
  unfold splitExcelByPrice
  rw [splitLoop_spec]
  simp only [List.cons_append, List.nil_append, List.drop_succ_cons, List.drop_zero]
  rw [List.mem_filter]
  exact ⟨hmem, by simp [hp]⟩

/-- C10 (witness): a row with an empty price cell is classified as
price 0 and routed to the low output. -/
theorem claim_C10_witness :
    rowPrice [Cell.str "n", Cell.num 1, Cell.str "s", Cell.empty] = 0
    ∧ [Cell.str "n", Cell.num 1, Cell.str "s", Cell.empty]
        ∈ (splitExcelByPrice exportHeader
            [[Cell.str "n", Cell.num 1, Cell.str "s", Cell.empty]]).lowRows.drop 1 :=
  claim_C10 exportHeader [[Cell.str "n", Cell.num 1, Cell.str "s", Cell.empty]]
    [Cell.str "n", Cell.num 1, Cell.str "s", Cell.empty]
    (by decide) (Or.inl rfl)

/-! ### Claim C4: decimal print/parse round trip for the price lists -/

theorem digitCh_toNat {d : Nat} (h : d < 10) : (digitCh d).toNat = 48 + d :=
  toNat_ofNat_valid (48 + d) (by omega)

theorem isDigitCh_digitCh {d : Nat} (h : d < 10) : isDigitCh (digitCh d) = true := by
  simp [isDigitCh, digitCh_toNat h]
  omega

theorem foldl_digits_rev : ∀ (ds : List Nat), (∀ d ∈ ds, d < 10) → ∀ (a : Nat),
    ((ds.reverse.map digitCh).foldl (fun x c => x * 10 + (c.toNat - 48)) a)
      = a * 10 ^ ds.length + Nat.ofDigits 10 ds := by
  intro ds
  induction ds with
  | nil => intro h a; simp
  | cons d tl ih =>
    intro h a
    have hd : d < 10 := h d (by simp)
    have htl : ∀ x ∈ tl, x < 10 := fun x hx => h x (List.mem_cons_of_mem _ hx)
    rw [List.reverse_cons, List.map_append, List.foldl_append, ih htl a]
    simp only [List.map_cons, List.map_nil, List.foldl_cons, List.foldl_nil]
    rw [digitCh_toNat hd, Nat.ofDigits_cons]
    have hsub : 48 + d - 48 = d := by omega
    rw [hsub]
    simp only [List.length_cons, pow_succ]
    ring

theorem charsToNat_natToChars (n : Nat) : charsToNat (natToChars n) = n := by
  by_cases h0 : n = 0
  · subst h0; decide
  · unfold natToChars charsToNat
    rw [if_neg h0]
    rw [foldl_digits_rev (Nat.digits 10 n) (fun d hd => Nat.digits_lt_base (by norm_num) hd) 0]
    simp [Nat.ofDigits_digits]

theorem natToChars_all_digit (n : Nat) : ∀ c ∈ natToChars n, isDigitCh c = true := by
  intro c hc
  unfold natToChars at hc
  by_cases h0 : n = 0
  · simp [h0] at hc
    subst hc
    decide
  · rw [if_neg h0] at hc
    obtain ⟨d, hd, rfl⟩ := List.mem_map.mp hc
    have : d < 10 := Nat.digits_lt_base (by norm_num) (List.mem_reverse.mp hd)
    exact isDigitCh_digitCh this

theorem natToChars_ne_nil (n : Nat) : natToChars n ≠ [] := by
  unfold natToChars
  by_cases h0 : n = 0
  · simp [h0]
  · rw [if_neg h0]
    simp [Nat.digits_ne_nil_iff_ne_zero, h0]

theorem isDigitCh_ne_minus {c : Char} (h : isDigitCh c = true) : c ≠ '-' := by
  intro hc
  subst hc
  simp [isDigitCh] at h

theorem isDigitCh_ne_comma {c : Char} (h : isDigitCh c = true) : c ≠ ',' := by
  intro hc
  subst hc
  simp [isDigitCh] at h

theorem intToChars_no_comma (i : Int) : ∀ c ∈ intToChars i, c ≠ ',' := by
  intro c hc
  unfold intToChars at hc
  by_cases hneg : i < 0
  · rw [if_pos hneg] at hc
    rcases List.mem_cons.mp hc with h2 | h2
    · subst h2; decide
    · exact isDigitCh_ne_comma (natToChars_all_digit _ c h2)
  · rw [if_neg hneg] at hc
    exact isDigitCh_ne_comma (natToChars_all_digit _ c hc)

theorem jsNumberToInt_intToChars (i : Int) : jsNumberToInt (intToChars i) = i := by
  unfold intToChars
  by_cases hneg : i < 0
  · rw [if_pos hneg]
    unfold jsNumberToInt
    have hh : (('-' :: natToChars i.natAbs).head? = some '-') := rfl
    rw [if_pos hh]
    have hdrop : ('-' :: natToChars i.natAbs).drop 1 = natToChars i.natAbs := rfl
    rw [hdrop]
    rw [if_pos ⟨natToChars_ne_nil _, List.all_eq_true.mpr (natToChars_all_digit _)⟩]
    rw [charsToNat_natToChars]
    omega
  · rw [if_neg hneg]
    unfold jsNumberToInt
    have hne := natToChars_ne_nil i.toNat
    cases hnc : natToChars i.toNat with
    | nil => exact absurd hnc hne
    | cons c tl =>
      have hdig : isDigitCh c = true := by
        apply natToChars_all_digit i.toNat
        rw [hnc]
        simp
      have hm : ¬ ((c :: tl).head? = some '-') := by
        simp
        exact isDigitCh_ne_minus hdig
      rw [if_neg hm]
      have hall : (c :: tl).all isDigitCh = true := by
        rw [← hnc]
        exact List.all_eq_true.mpr (natToChars_all_digit _)
      rw [if_pos hall, ← hnc, charsToNat_natToChars]
      omega

theorem splitCommaSp_ne_nil : ∀ cs : List Char, splitCommaSp cs ≠ [] := by
  intro cs
  match cs with
  | [] => simp [splitCommaSp]
  | [c] => simp [splitCommaSp]
  | c :: d :: rest =>
    unfold splitCommaSp
    by_cases h : c = ',' ∧ d = ' '
    · simp [h]
    · rw [if_neg h]
      cases hs : splitCommaSp (d :: rest) <;> simp

theorem splitCommaSp_nosep : ∀ t : List Char, ',' ∉ t → splitCommaSp t = [t] := by
  intro t
  induction t with
  | nil => intro h; rfl
  | cons c t2 ih =>
    intro h
    have hc : c ≠ ',' := fun hc2 => h (hc2 ▸ List.mem_cons_self c t2)
    have ht2 : ',' ∉ t2 := fun h2 => h (List.mem_cons_of_mem _ h2)
    cases t2 with
    | nil => rfl
    | cons d rest =>
      unfold splitCommaSp
      rw [if_neg (fun hand => hc hand.1)]
      rw [ih ht2]

theorem splitCommaSp_append : ∀ (t : List Char), ',' ∉ t → ∀ rest : List Char,
    splitCommaSp (t ++ ',' :: ' ' :: rest) = t :: splitCommaSp rest := by
  intro t
  induction t with
  | nil =>
    intro h rest
    show splitCommaSp (',' :: ' ' :: rest) = [] :: splitCommaSp rest
    rw [splitCommaSp]
    simp
  | cons c t2 ih =>
    intro h rest
    have hc : c ≠ ',' := fun hc2 => h (hc2 ▸ List.mem_cons_self c t2)
    have ht2 : ',' ∉ t2 := fun h2 => h (List.mem_cons_of_mem _ h2)
    cases t2 with
    | nil =>
      show splitCommaSp (c :: ',' :: ' ' :: rest) = [c] :: splitCommaSp rest
      rw [splitCommaSp]
      rw [if_neg (fun hand => hc hand.1)]
      have hbase : splitCommaSp (',' :: ' ' :: rest) = [] :: splitCommaSp rest := by
        rw [splitCommaSp]
        simp
      rw [hbase]
    | cons d t3 =>
      show splitCommaSp (c :: d :: (t3 ++ ',' :: ' ' :: rest)) = (c :: d :: t3) :: splitCommaSp rest
      rw [splitCommaSp]
      rw [if_neg (fun hand => hc hand.1)]
      have hstep := ih ht2 rest
      rw [show d :: (t3 ++ ',' :: ' ' :: rest) = (d :: t3) ++ ',' :: ' ' :: rest from rfl, hstep]

theorem split_join (ps : List Int) (hne : ps ≠ []) :
    (splitCommaSp (joinIntsChars ps)).map jsNumberToInt = ps := by
  induction ps with
  | nil => exact absurd rfl hne
  | cons p rest ih =>
    cases rest with
    | nil =>
      show (splitCommaSp (intToChars p)).map jsNumberToInt = [p]
      rw [splitCommaSp_nosep _ (fun h => intToChars_no_comma p ',' h rfl)]
      simp [jsNumberToInt_intToChars]
    | cons q rest2 =>
      show (splitCommaSp (intToChars p ++ ',' :: ' ' :: joinIntsChars (q :: rest2))).map
          jsNumberToInt = p :: q :: rest2
      rw [splitCommaSp_append _ (fun h => intToChars_no_comma p ',' h rfl)]
      rw [List.map_cons, jsNumberToInt_intToChars, ih (by simp)]

theorem intToChars_ne_nil (i : Int) : intToChars i ≠ [] := by
  unfold intToChars
  by_cases hneg : i < 0
  · simp [hneg]
  · simp [hneg, natToChars_ne_nil]

theorem joinIntsChars_ne_nil (p : Int) (rest : List Int) :
    joinIntsChars (p :: rest) ≠ [] := by
  cases rest with
  | nil => exact intToChars_ne_nil p
  | cons q r2 =>
    show intToChars p ++ ',' :: ' ' :: joinIntsChars (q :: r2) ≠ []
    simp

theorem intToChars_head_not_net (i : Int) :
    ∀ c, (intToChars i).head? = some c → c ≠ 'Н' := by
  intro c hc hcn
  subst hcn
  unfold intToChars at hc
  by_cases hneg : i < 0
  · rw [if_pos hneg] at hc
    simp at hc
  · rw [if_neg hneg] at hc
    cases hn : natToChars i.toNat with
    | nil => exact natToChars_ne_nil _ hn
    | cons d tl =>
      rw [hn] at hc
      simp at hc
      have hdig : isDigitCh d = true := natToChars_all_digit _ d (by rw [hn]; simp)
      rw [hc] at hdig
      simp [isDigitCh] at hdig

theorem join_ne_net (p : Int) (rest : List Int) :
    ¬ String.mk (joinIntsChars (p :: rest)) = "Нет" := by
  intro h
  have hdata : joinIntsChars (p :: rest) = "Нет".data := congrArg String.data h
  have hhead : (joinIntsChars (p :: rest)).head? = some 'Н' := by
    rw [hdata]; rfl
  have hfirst : (joinIntsChars (p :: rest)).head? = (intToChars p).head? := by
    cases rest with
    | nil => rfl
    | cons q r2 =>
      show (intToChars p ++ ',' :: ' ' :: joinIntsChars (q :: r2)).head? = _
      cases hip : intToChars p with
      | nil => exact absurd hip (intToChars_ne_nil p)
      | cons c tl => rfl
  rw [hfirst] at hhead
  exact intToChars_head_not_net p 'Н' hhead rfl

theorem join_ne_empty (p : Int) (rest : List Int) :
    ¬ String.mk (joinIntsChars (p :: rest)) = "" := by
  intro h
  have hdata : joinIntsChars (p :: rest) = [] := congrArg String.data h
  exact joinIntsChars_ne_nil p rest hdata

theorem ratTrunc_intCast (i : Int) : ratTrunc ((i : Int) : Rat) = i := by
  unfold ratTrunc
  rw [Rat.num_intCast, Rat.den_intCast]
  simp

theorem rowToInsertItem_exportRow (it : InventoryItem) (h : GoodItem it) :
    rowToInsertItem (exportRow it) = some
      { name := it.name, slug := it.slug, quantity := some it.quantity,
        sellPrices := it.sellPrices, buyPrices := it.buyPrices,
        avgSell := some it.avgSell, avgBuy := some it.avgBuy,
        marketUrl := it.marketUrl, category := categoryOf it.name } := by
  obtain ⟨hname, hs1, hs2, hu1, hu2⟩ := h
  have g1 : getCellR 1 (exportRow it) = .str it.name := rfl
  have g2 : getCellR 2 (exportRow it) = .num (it.quantity : Rat) := rfl
  have g3 : getCellR 3 (exportRow it) = .str (orSentinel it.slug "НЕ НАЙДЕН") := rfl
  have g4 : getCellR 4 (exportRow it)
      = .str (if String.mk (joinIntsChars it.sellPrices) = "" then "Нет"
              else String.mk (joinIntsChars it.sellPrices)) := rfl
  have g5 : getCellR 5 (exportRow it)
      = .str (if String.mk (joinIntsChars it.buyPrices) = "" then "Нет"
              else String.mk (joinIntsChars it.buyPrices)) := rfl
  have g6 : getCellR 6 (exportRow it) = .num (if it.avgSell = 0 then 0 else it.avgSell) := rfl
  have g7 : getCellR 7 (exportRow it) = .num (if it.avgBuy = 0 then 0 else it.avgBuy) := rfl
  have g8 : getCellR 8 (exportRow it) = .str (orSentinel it.marketUrl "N/A") := rfl
  unfold rowToInsertItem
  rw [g1, g2, g3, g4, g5, g6, g7, g8]
  show (if it.name = "" then none else some _) = _
  rw [if_neg hname]
  congr 1
  have hslug : (match cellToStringOpt (.str (orSentinel it.slug "НЕ НАЙДЕН")) with
      | none => none
      | some s => if s = "НЕ НАЙДЕН" then none else some s) = it.slug := by
    cases hsl : it.slug with
    | none => simp [cellToStringOpt, orSentinel]
    | some s =>
      have hse : s ≠ "" := by
        intro h2
        exact hs1 (by rw [hsl, h2])
      have hsn : s ≠ "НЕ НАЙДЕН" := by
        intro h2
        exact hs2 (by rw [hsl, h2])
      simp [cellToStringOpt, orSentinel, hse, hsn]
  have hurl : (match cellToStringOpt (.str (orSentinel it.marketUrl "N/A")) with
      | none => none
      | some s => if s = "N/A" then none else some s) = it.marketUrl := by
    cases hsl : it.marketUrl with
    | none => simp [cellToStringOpt, orSentinel]
    | some s =>
      have hse : s ≠ "" := by
        intro h2
        exact hu1 (by rw [hsl, h2])
      have hsn : s ≠ "N/A" := by
        intro h2
        exact hu2 (by rw [hsl, h2])
      simp [cellToStringOpt, orSentinel, hse, hsn]
  have hqty : cellParseIntD (.num (it.quantity : Rat)) = it.quantity := by
    show ratTrunc ((it.quantity : Int) : Rat) = it.quantity
    exact ratTrunc_intCast it.quantity
  have hsell : (match cellToStringOpt (getCellR 4 (exportRow it)) with
      | none => ([] : List Int)
      | some s => if s = "" ∨ s = "Нет" then []
                  else (splitCommaSp s.data).map jsNumberToInt) = it.sellPrices := by
    rw [g4]
    cases hps : it.sellPrices with
    | nil => simp [cellToStringOpt, joinIntsChars]
    | cons p rest =>
      have hne2 : ¬ String.mk (joinIntsChars (p :: rest)) = "" := join_ne_empty p rest
      have hnn : ¬ String.mk (joinIntsChars (p :: rest)) = "Нет" := join_ne_net p rest
      simp only [cellToStringOpt, if_neg hne2]
      rw [if_neg (by simp [hne2, hnn])]
      show (splitCommaSp (joinIntsChars (p :: rest))).map jsNumberToInt = p :: rest
      exact split_join (p :: rest) (by simp)
  have hbuy : (match cellToStringOpt (getCellR 5 (exportRow it)) with
      | none => ([] : List Int)
      | some s => if s = "" ∨ s = "Нет" then []
                  else (splitCommaSp s.data).map jsNumberToInt) = it.buyPrices := by
    rw [g5]
    cases hps : it.buyPrices with
    | nil => simp [cellToStringOpt, joinIntsChars]
    | cons p rest =>
      have hne2 : ¬ String.mk (joinIntsChars (p :: rest)) = "" := join_ne_empty p rest
      have hnn : ¬ String.mk (joinIntsChars (p :: rest)) = "Нет" := join_ne_net p rest
      simp only [cellToStringOpt, if_neg hne2]
      rw [if_neg (by simp [hne2, hnn])]
      show (splitCommaSp (joinIntsChars (p :: rest))).map jsNumberToInt = p :: rest
      exact split_join (p :: rest) (by simp)
  have havgs : cellParseFloatD (.num (if it.avgSell = 0 then 0 else it.avgSell)) = it.avgSell := by
    by_cases hz : it.avgSell = 0 <;> simp [cellParseFloatD, hz]
  have havgb : cellParseFloatD (.num (if it.avgBuy = 0 then 0 else it.avgBuy)) = it.avgBuy := by
    by_cases hz : it.avgBuy = 0 <;> simp [cellParseFloatD, hz]
  rw [InsertItem.mk.injEq]
  refine ⟨rfl, ?_, ?_, ?_, ?_, ?_, ?_, ?_, rfl⟩
  · exact hslug
  · rw [hqty]
  · rw [g4] at hsell
    exact hsell
  · rw [g5] at hbuy
    exact hbuy
  · rw [havgs]
  · rw [havgb]
  · exact hurl

theorem loadRowsLoop_fields (jobId : Nat) (sess : String) :
    ∀ (items : List InventoryItem) (loaded : Nat) (st : MemStorage),
      (∀ it ∈ items, GoodItem it) →
      (sessionInventory sess (loadRowsLoop jobId sess (items.map exportRow) loaded st)).map
          itemFields
        = (sessionInventory sess st).map itemFields ++ items.map itemFields := by
  intro items
  induction items with
  | nil => intro loaded st hg; simp [loadRowsLoop]
  | cons it tl ih =>
    intro loaded st hg
    have hgit : GoodItem it := hg it (by simp)
    have hgtl : ∀ x ∈ tl, GoodItem x := fun x hx => hg x (List.mem_cons_of_mem _ hx)
    show (sessionInventory sess (loadRowsLoop jobId sess (exportRow it :: tl.map exportRow)
        loaded st)).map itemFields = _
    have hrow := rowToInsertItem_exportRow it hgit
    simp only [loadRowsLoop, hrow]
    rw [ih (loaded + 1) _ hgtl]
    rw [sessionInventory_addLog, sessionInventory_updateJob, sessionInventory_createItem]
    have hfields : itemFields (createInventoryItem sess
        { name := it.name, slug := it.slug, quantity := some it.quantity,
          sellPrices := it.sellPrices, buyPrices := it.buyPrices,
          avgSell := some it.avgSell, avgBuy := some it.avgBuy,
          marketUrl := it.marketUrl, category := categoryOf it.name } st).1 = itemFields it := rfl
    simp [hfields, List.append_assoc]

theorem sessionInventory_clear (sess : String) (st : MemStorage) :
    sessionInventory sess (clearInventory sess st) = [] := by
  unfold clearInventory
  exact sessionInventory_set sess [] st

/-- C4 (amended): exporting a session's inventory and re-importing the
workbook as a full replacement reproduces the inventory exactly —
same number of items, with identical name, quantity, sell-price list,
buy-price list, average sell, average buy, slug and market URL, the
sentinel strings mapping back to the absent/empty values they encode —
**provided** every item has a non-empty name and its slug/market-URL
fields are not themselves empty strings or the literal sentinel
strings (such items, which the normal pipeline never produces, are
skipped or collapsed by the sentinel conventions — see the
counterexample). -/
theorem claim_C4_amended (jobId : Nat) (sess : String) (st : MemStorage)
    (hgood : ∀ it ∈ getInventoryItems sess st, GoodItem it) :
    (getInventoryItems sess (loadExcelFileAsync jobId sess
        (exportWorkbook (getInventoryItems sess st)) st)).map itemFields
      = (getInventoryItems sess st).map itemFields := by
  have hinv : getInventoryItems sess st = sessionInventory sess st := rfl
  rw [hinv] at hgood
  unfold loadExcelFileAsync exportWorkbook getInventoryItems
  rw [sessionInventory_addLog, sessionInventory_updateJob]
  have hdrop : ∀ l : List Row, (exportHeader :: l).drop 1 = l := fun l => rfl
  rw [hdrop]
  rw [loadRowsLoop_fields jobId sess (sessionInventory sess st) 0 _ hgood]
  rw [sessionInventory_updateJob, sessionInventory_addLog, sessionInventory_clear]
  simp

/-- C4 (counterexample): the round trip is not exact for every
inventory — an item whose name is the empty string is exported as an
empty name cell, which the importer's `if (itemName)` guard skips, so
one item goes in and zero come back. -/
theorem claim_C4_counterexample :
    (getInventoryItems "s" (createInventoryItem "s" { name := "" } emptyStorage).2).length = 1
    ∧ (getInventoryItems "s" (loadExcelFileAsync 7 "s"
        (exportWorkbook (getInventoryItems "s"
          (createInventoryItem "s" { name := "" } emptyStorage).2))
        (createInventoryItem "s" { name := "" } emptyStorage).2)).length = 0 := by
  constructor
  · decide
  · decide

/-- C4 (witness): the amended theorem evaluated on a one-item
inventory with market data present. -/
theorem claim_C4_witness :
    (getInventoryItems "s" (loadExcelFileAsync 7 "s"
        (exportWorkbook (getInventoryItems "s"
          (createInventoryItem "s"
            { name := "Предмет (Чертеж)", slug := some "item-slug", quantity := some 3,
              sellPrices := [3, 15], buyPrices := [], avgSell := some 9, avgBuy := some 0,
              marketUrl := some "https://warframe.market/ru/items/item-slug",
              category := "Чертежи" } emptyStorage).2))
        (createInventoryItem "s"
          { name := "Предмет (Чертеж)", slug := some "item-slug", quantity := some 3,
            sellPrices := [3, 15], buyPrices := [], avgSell := some 9, avgBuy := some 0,
            marketUrl := some "https://warframe.market/ru/items/item-slug",
            category := "Чертежи" } emptyStorage).2)).map itemFields
      = (getInventoryItems "s"
          (createInventoryItem "s"
            { name := "Предмет (Чертеж)", slug := some "item-slug", quantity := some 3,
              sellPrices := [3, 15], buyPrices := [], avgSell := some 9, avgBuy := some 0,
              marketUrl := some "https://warframe.market/ru/items/item-slug",
              category := "Чертежи" } emptyStorage).2).map itemFields :=
  claim_C4_amended 7 "s"
    (createInventoryItem "s"
      { name := "Предмет (Чертеж)", slug := some "item-slug", quantity := some 3,
        sellPrices := [3, 15], buyPrices := [], avgSell := some 9, avgBuy := some 0,
        marketUrl := some "https://warframe.market/ru/items/item-slug",
        category := "Чертежи" } emptyStorage).2
    (by decide)

/-! ### Claims C1 and C7: the reconciliation step -/

theorem nextId_modifyJob (id : Nat) (f : ProcessingJob → ProcessingJob) (st : MemStorage) :
    (modifyJob id f st).nextId = st.nextId := rfl

theorem findByName_congr (sess name : String) (s1 s2 : MemStorage)
    (h : sessionInventory sess s1 = sessionInventory sess s2) :
    findInventoryItemByName sess name s1 = findInventoryItemByName sess name s2 := by
  unfold findInventoryItemByName
  rw [h]

theorem updateQty_of_mem (sess : String) (id : Nat) (q : Int) (st : MemStorage)
    (hsome : ((sessionInventory sess st).find? (fun it => it.id = id)).isSome) :
    updateInventoryItemQuantity sess id q st = .ok (setSessionInventory sess
      ((sessionInventory sess st).map
        (fun it => if it.id = id then { it with quantity := q } else it)) st) := by
  unfold updateInventoryItemQuantity
  obtain ⟨w, hw⟩ := Option.isSome_iff_exists.mp hsome
  rw [hw]

theorem itemLoop_edit_single (jobId : Nat) (sess : String) (market : String → Option MarketItem)
    (A : String) (q : Int) (st : MemStorage) (ex : InventoryItem)
    (hfind : findInventoryItemByName sess A st = some ex) :
    sessionInventory sess (itemLoop jobId sess .edit market [(A, q)] 0 st).2
      = (sessionInventory sess st).map
          (fun it => if it.id = ex.id then { it with quantity := ex.quantity + q } else it) := by
  have hmem : ex ∈ sessionInventory sess st := by
    unfold findInventoryItemByName at hfind
    exact List.mem_of_find?_eq_some hfind
  have hsome : ((sessionInventory sess st).find? (fun it => it.id = ex.id)).isSome := by
    rw [List.find?_isSome]
    exact ⟨ex, hmem, by simp⟩
  have hup := updateQty_of_mem sess ex.id (ex.quantity + q) st hsome
  simp only [itemLoop, hfind, if_pos rfl, if_true, hup]
  rw [sessionInventory_updateJob, sessionInventory_addLog, sessionInventory_set]

theorem itemLoop_create_single (jobId : Nat) (sess : String) (mode : Mode)
    (market : String → Option MarketItem) (name : String) (q : Int) (st : MemStorage)
    (hfind : findInventoryItemByName sess name st = none)
    (hmarket : market name = none) :
    sessionInventory sess (itemLoop jobId sess mode market [(name, q)] 0 st).2
      = sessionInventory sess st ++
        [{ id := st.nextId, name := name, slug := none, quantity := q, sellPrices := [],
           buyPrices := [], avgSell := 0, avgBuy := 0, marketUrl := none,
           category := "Unknown" }] := by
  simp only [itemLoop, hfind, hmarket]
  rw [sessionInventory_updateJob, sessionInventory_addLog, sessionInventory_createItem]
  rfl

theorem pipeline_one_image_edit (jobId : Nat) (sess : String)
    (market : String → Option MarketItem) (pairs : List (String × Int)) (A : String)
    (qtot : Int) (st : MemStorage) (ex : InventoryItem)
    (hagg : aggregate pairs = [(A, qtot)])
    (hfind : findInventoryItemByName sess A st = some ex) :
    sessionInventory sess (processImagesAsync jobId sess [.ok pairs] market .edit st).2
      = (sessionInventory sess st).map
          (fun it => if it.id = ex.id then { it with quantity := ex.quantity + qtot }
                     else it) := by
  simp only [processImagesAsync, imageLoop, List.length_cons, List.length_nil, List.nil_append,
    hagg]
  rw [sessionInventory_addLog, sessionInventory_updateJob]
  rw [itemLoop_edit_single jobId sess market A qtot _ ex
    (by
      rw [findByName_congr sess A _ st
        (by simp [sessionInventory_addLog, sessionInventory_updateJob])]
      exact hfind)]
  simp [sessionInventory_addLog, sessionInventory_updateJob]

theorem route_one_image_edit (sess : String) (market : String → Option MarketItem)
    (pairs : List (String × Int)) (A : String) (qtot : Int) (st : MemStorage)
    (ex : InventoryItem) (hagg : aggregate pairs = [(A, qtot)])
    (hfind : findInventoryItemByName sess A st = some ex) :
    sessionInventory sess (submitImagesRoute sess [.ok pairs] market .edit st).2.2
      = (sessionInventory sess st).map
          (fun it => if it.id = ex.id then { it with quantity := ex.quantity + qtot }
                     else it) := by
  unfold submitImagesRoute
  simp only []
  rw [pipeline_one_image_edit _ sess market pairs A qtot _ ex hagg
    (by
      rw [findByName_congr sess A _ st (sessionInventory_createJob sess _ st)]
      exact hfind)]
  rw [sessionInventory_createJob]

/-- C1: merge-mode ingestion is additive and commutative in outcome —
starting from any store in which the recognised name matches an
existing item, submitting {A:q1} then {A:q2} as two single-image
batches in `edit` (merge) mode leaves that item with quantity
`ex.quantity + q1 + q2`, exactly the quantity obtained by one batch
whose pairs aggregate to {A:q1+q2}; each merge increments the existing
record's quantity by the aggregated recognised amount. -/
theorem claim_C1 (sess A : String) (q1 q2 : Int) (market : String → Option MarketItem)
    (st : MemStorage) (ex : InventoryItem)
    (hfind : findInventoryItemByName sess A st = some ex) :
    ((getInventoryItem sess ex.id
        (submitImagesRoute sess [.ok [(A, q2)]] market .edit
          (submitImagesRoute sess [.ok [(A, q1)]] market .edit st).2.2).2.2).map
        (fun it => it.quantity) = some (ex.quantity + q1 + q2))
    ∧ ((getInventoryItem sess ex.id
        (submitImagesRoute sess [.ok [(A, q1), (A, q2)]] market .edit st).2.2).map
        (fun it => it.quantity) = some (ex.quantity + (q1 + q2)))
    ∧ ex.quantity + q1 + q2 = ex.quantity + (q1 + q2) := by
  have hagg1 : aggregate [(A, q1)] = [(A, q1)] := by simp [aggregate, bumpCount]
  have hagg2 : aggregate [(A, q2)] = [(A, q2)] := by simp [aggregate, bumpCount]
  have hagg12 : aggregate [(A, q1), (A, q2)] = [(A, q1 + q2)] := by
    simp [aggregate, bumpCount]
  have hmem : ex ∈ sessionInventory sess st := by
    unfold findInventoryItemByName at hfind
    exact List.mem_of_find?_eq_some hfind
  have hsome : ((sessionInventory sess st).find? (fun it => it.id = ex.id)).isSome := by
    rw [List.find?_isSome]
    exact ⟨ex, hmem, by simp⟩
  obtain ⟨w, hw⟩ := Option.isSome_iff_exists.mp hsome
  have hwid : w.id = ex.id := by simpa using List.find?_some hw
  have hrun1 := route_one_image_edit sess market [(A, q1)] A q1 st ex hagg1 hfind
  have hg1name : ∀ it : InventoryItem,
      (fun x : InventoryItem => lowerTrimEq x.name A)
        ((fun it2 : InventoryItem => if it2.id = ex.id
            then { it2 with quantity := ex.quantity + q1 } else it2) it)
      = (fun x : InventoryItem => lowerTrimEq x.name A) it := by
    intro it
    by_cases h : it.id = ex.id <;> simp [h]
  have hfind1 : findInventoryItemByName sess A
      (submitImagesRoute sess [.ok [(A, q1)]] market .edit st).2.2
      = some { ex with quantity := ex.quantity + q1 } := by
    unfold findInventoryItemByName
    rw [hrun1, find?_map_pres _ _ hg1name]
    unfold findInventoryItemByName at hfind
    rw [hfind]
    simp
  have hrun2 := route_one_image_edit sess market [(A, q2)] A q2 _
    { ex with quantity := ex.quantity + q1 } hagg2 hfind1
  have hidpres : ∀ (qq : Int) (it : InventoryItem),
      (fun x : InventoryItem => decide (x.id = ex.id))
        ((fun it2 : InventoryItem => if it2.id = ex.id
            then { it2 with quantity := qq } else it2) it)
      = (fun x : InventoryItem => decide (x.id = ex.id)) it := by
    intro qq it
    by_cases h : it.id = ex.id <;> simp [h]
  refine ⟨?_, ?_, by omega⟩
  · unfold getInventoryItem
    rw [hrun2]
    simp only []
    rw [hrun1]
    rw [find?_map_pres _ _ (hidpres (ex.quantity + q1 + q2))]
    rw [find?_map_pres _ _ (hidpres (ex.quantity + q1))]
    rw [hw]
    simp [hwid]
  · have hrunS := route_one_image_edit sess market [(A, q1), (A, q2)] A (q1 + q2) st ex
      hagg12 hfind
    unfold getInventoryItem
    rw [hrunS, find?_map_pres _ _ (hidpres (ex.quantity + (q1 + q2))), hw]
    simp [hwid]

/-- C1 (witness): the specification's example — an existing item of
quantity 0, batches {A:2} then {A:3} versus one batch aggregating to
{A:5}; both runs leave quantity 5. -/
theorem claim_C1_witness :
    ((getInventoryItem "s" 0
        (submitImagesRoute "s" [.ok [("A", 3)]] (fun _ => none) .edit
          (submitImagesRoute "s" [.ok [("A", 2)]] (fun _ => none) .edit
            (createInventoryItem "s" { name := "A", quantity := some 0 }
              emptyStorage).2).2.2).2.2).map
        (fun it => it.quantity) = some 5) := by
  have h := (claim_C1 "s" "A" 2 3 (fun _ => none)
    (createInventoryItem "s" { name := "A", quantity := some 0 } emptyStorage).2
    (createInventoryItem "s" { name := "A", quantity := some 0 } emptyStorage).1
    (by decide)).1
  exact h

theorem nextId_addLog (id : Nat) (m : String) (st : MemStorage) :
    (addProcessingLog id m st).nextId = st.nextId := rfl

theorem nextId_updateJob (id : Nat) (p : JobPatch) (st : MemStorage) :
    (updateProcessingJob id p st).nextId = st.nextId := rfl

theorem nextId_createJob (f : InsertJob) (st : MemStorage) :
    (createProcessingJob f st).2.nextId = st.nextId + 1 := rfl

theorem pipeline_one_image_create (jobId : Nat) (sess : String) (mode : Mode)
    (market : String → Option MarketItem) (pairs : List (String × Int)) (name : String)
    (q : Int) (st : MemStorage) (hagg : aggregate pairs = [(name, q)])
    (hfind : findInventoryItemByName sess name st = none)
    (hmarket : market name = none) :
    sessionInventory sess (processImagesAsync jobId sess [.ok pairs] market mode st).2
      = sessionInventory sess st ++
        [{ id := st.nextId, name := name, slug := none, quantity := q, sellPrices := [],
           buyPrices := [], avgSell := 0, avgBuy := 0, marketUrl := none,
           category := "Unknown" }] := by
  simp only [processImagesAsync, imageLoop, List.length_cons, List.length_nil, List.nil_append,
    hagg]
  rw [sessionInventory_addLog, sessionInventory_updateJob]
  rw [itemLoop_create_single jobId sess mode market name q _
    (by
      rw [findByName_congr sess name _ st
        (by simp [sessionInventory_addLog, sessionInventory_updateJob])]
      exact hfind)
    hmarket]
  simp [sessionInventory_addLog, sessionInventory_updateJob, nextId_addLog, nextId_updateJob]

theorem route_one_image_create (sess : String) (mode : Mode)
    (market : String → Option MarketItem) (pairs : List (String × Int)) (name : String)
    (q : Int) (st : MemStorage) (hagg : aggregate pairs = [(name, q)])
    (hfind : findInventoryItemByName sess name st = none)
    (hmarket : market name = none) :
    sessionInventory sess (submitImagesRoute sess [.ok pairs] market mode st).2.2
      = sessionInventory sess st ++
        [{ id := st.nextId + 1, name := name, slug := none, quantity := q, sellPrices := [],
           buyPrices := [], avgSell := 0, avgBuy := 0, marketUrl := none,
           category := "Unknown" }] := by
  unfold submitImagesRoute
  simp only []
  rw [pipeline_one_image_create _ sess mode market pairs name q _ hagg
    (by
      rw [findByName_congr sess name _ st (sessionInventory_createJob sess _ st)]
      exact hfind)
    hmarket]
  rw [sessionInventory_createJob, nextId_createJob]

/-- C7: a market lookup failure never escapes item creation — when the
name has no catalog slug (or the order fetch for its slug fails), the
adapter returns `none` (NotFound) rather than raising, and the
ingestion pipeline still creates an inventory record for the name with
empty price lists, zero averages, no slug and no market URL. -/
theorem claim_C7 (cache : List (String × WFMItem)) (fetch : String → Except String WFMOrderData)
    (sess name : String) (q : Int) (st : MemStorage) (mode : Mode)
    (hfind : findInventoryItemByName sess name st = none) :
    (findItemSlug cache name = none → processItemForMarket cache fetch name = none)
    ∧ (∀ slug e, findItemSlug cache name = some slug → fetch slug = .error e →
        processItemForMarket cache fetch name = none)
    ∧ (processItemForMarket cache fetch name = none →
        getInventoryItems sess (submitImagesRoute sess [.ok [(name, q)]]
            (processItemForMarket cache fetch) mode st).2.2
          = getInventoryItems sess st ++
            [{ id := st.nextId + 1, name := name, slug := none, quantity := q,
               sellPrices := [], buyPrices := [], avgSell := 0, avgBuy := 0,
               marketUrl := none, category := "Unknown" }]) := by
  refine ⟨?_, ?_, ?_⟩
  · intro h
    unfold processItemForMarket
    rw [h]
  · intro slug e h1 h2
    unfold processItemForMarket
    rw [h1]
    simp [getItemPrices, h2]
  · intro hm
    exact route_one_image_create sess mode (processItemForMarket cache fetch) [(name, q)]
      name q st (by simp [aggregate, bumpCount]) hfind hm

/-- C7 (witness): an empty catalog and a failing fetch — the unknown
name "x" still becomes an inventory record with zeroed market data. -/
theorem claim_C7_witness :
    getInventoryItems "s" (submitImagesRoute "s" [.ok [("x", 2)]]
        (processItemForMarket [] (fun _ => .error "down")) .online emptyStorage).2.2
      = [{ id := 1, name := "x", slug := none, quantity := 2, sellPrices := [],
           buyPrices := [], avgSell := 0, avgBuy := 0, marketUrl := none,
           category := "Unknown" }] := by
  have h := (claim_C7 [] (fun _ => .error "down") "s" "x" 2 emptyStorage .online rfl).2.2
  have hm : processItemForMarket [] (fun _ => .error "down") "x" = none := rfl
  rw [h hm]
  rfl

/-! ### Claims C5 and C6: job counters and status along the trace -/

theorem getJob_addLog_like (i : Nat) (m : String) (st : MemStorage) (j : ProcessingJob)
    (hj : getProcessingJob i st = some j) :
    ∃ j1, getProcessingJob i (addProcessingLog i m st) = some j1 ∧ JobLike j j1 := by
  rw [getJob_addLog, hj]
  exact ⟨_, rfl, rfl, rfl, rfl, rfl, rfl⟩

theorem getJob_update_pi (i k : Nat) (st : MemStorage) (j : ProcessingJob)
    (hj : getProcessingJob i st = some j) :
    ∃ j1, getProcessingJob i (updateProcessingJob i { processedImages := some k } st) = some j1
      ∧ j1.status = j.status ∧ j1.totalImages = j.totalImages ∧ j1.processedImages = k
        ∧ j1.totalItems = j.totalItems ∧ j1.processedItems = j.processedItems := by
  rw [getJob_update, hj]
  exact ⟨_, rfl, rfl, rfl, rfl, rfl, rfl⟩

theorem getJob_update_items (i : Nat) (K : Nat) (st : MemStorage) (j : ProcessingJob)
    (hj : getProcessingJob i st = some j) :
    ∃ j1, getProcessingJob i (updateProcessingJob i
        { totalItems := some K, processedItems := some 0 } st) = some j1
      ∧ j1.status = j.status ∧ j1.totalImages = j.totalImages
        ∧ j1.processedImages = j.processedImages ∧ j1.totalItems = K
        ∧ j1.processedItems = 0 := by
  rw [getJob_update, hj]
  exact ⟨_, rfl, rfl, rfl, rfl, rfl, rfl⟩

theorem getJob_update_pc (i c : Nat) (st : MemStorage) (j : ProcessingJob)
    (hj : getProcessingJob i st = some j) :
    ∃ j1, getProcessingJob i (updateProcessingJob i { processedItems := some c } st) = some j1
      ∧ j1.status = j.status ∧ j1.totalImages = j.totalImages
        ∧ j1.processedImages = j.processedImages ∧ j1.totalItems = j.totalItems
        ∧ j1.processedItems = c := by
  rw [getJob_update, hj]
  exact ⟨_, rfl, rfl, rfl, rfl, rfl, rfl⟩

theorem getJob_update_status (i : Nat) (stat : JobStatus) (st : MemStorage) (j : ProcessingJob)
    (hj : getProcessingJob i st = some j) :
    ∃ j1, getProcessingJob i (updateProcessingJob i { status := some stat } st) = some j1
      ∧ j1.status = stat ∧ j1.totalImages = j.totalImages
        ∧ j1.processedImages = j.processedImages ∧ j1.totalItems = j.totalItems
        ∧ j1.processedItems = j.processedItems := by
  rw [getJob_update, hj]
  exact ⟨_, rfl, rfl, rfl, rfl, rfl, rfl⟩

theorem ImgInv_trans_of {j j3 j2 : ProcessingJob} (h : ImgInv j3 j2)
    (hs : j3.status = j.status) (hti : j3.totalImages = j.totalImages)
    (htI : j3.totalItems = j.totalItems) (hpI : j3.processedItems = j.processedItems) :
    ImgInv j j2 :=
  ⟨h.1.trans hs, h.2.1.trans hti, h.2.2.1, h.2.2.2.1.trans htI, h.2.2.2.2.trans hpI⟩

theorem imageLoop_walk (jobId : Nat) (total : Nat) :
    ∀ (vision : List (Except String (List (String × Int)))) (i : Nat)
      (acc : List (String × Int)) (st : MemStorage) (j : ProcessingJob),
      getProcessingJob jobId st = some j →
      i + vision.length ≤ j.totalImages →
      j.processedImages ≤ j.totalImages →
      (∀ s ∈ (imageLoop jobId total vision i acc st).2.1,
        ∃ j2, getProcessingJob jobId s = some j2 ∧ ImgInv j j2)
      ∧ (∃ j3, getProcessingJob jobId (imageLoop jobId total vision i acc st).2.2 = some j3
          ∧ ImgInv j j3) := by
  intro vision
  induction vision with
  | nil =>
    intro i acc st j hj hlen hpi
    refine ⟨?_, j, hj, rfl, rfl, hpi, rfl, rfl⟩
    intro s hs
    simp [imageLoop] at hs
  | cons r rest ih =>
    intro i acc st j hj hlen hpi
    have hlen2 : i + rest.length + 1 ≤ j.totalImages := by
      simp at hlen
      omega
    obtain ⟨j1, hj1, hl1s, hl1ti, hl1pi, hl1tI, hl1pI⟩ := getJob_addLog_like jobId _ st j hj
    cases r with
    | ok items =>
      obtain ⟨j2, hj2, h2s, h2ti, h2pi, h2tI, h2pI⟩ := getJob_update_pi jobId (i + 1) _ j1 hj1
      obtain ⟨j3, hj3, hl3s, hl3ti, hl3pi, hl3tI, hl3pI⟩ := getJob_addLog_like jobId _ _ j2 hj2
      have hj3s : j3.status = j.status := by rw [hl3s, h2s, hl1s]
      have hj3ti : j3.totalImages = j.totalImages := by rw [hl3ti, h2ti, hl1ti]
      have hj3tI : j3.totalItems = j.totalItems := by rw [hl3tI, h2tI, hl1tI]
      have hj3pI : j3.processedItems = j.processedItems := by rw [hl3pI, h2pI, hl1pI]
      have hj3pi : j3.processedImages = i + 1 := by rw [hl3pi, h2pi]
      have hrec := ih (i + 1) (acc ++ items) _ j3 hj3 (by omega) (by omega)
      simp only [imageLoop]
      constructor
      · intro s hs
        simp only [List.mem_cons] at hs
        rcases hs with rfl | hs
        · exact ⟨j1, hj1, hl1s, hl1ti, by omega, hl1tI, hl1pI⟩
        rcases hs with rfl | hs
        · refine ⟨j2, hj2, by rw [h2s, hl1s], by rw [h2ti, hl1ti], by omega, by
            rw [h2tI, hl1tI], by rw [h2pI, hl1pI]⟩
        rcases hs with rfl | hs
        · exact ⟨j3, hj3, hj3s, hj3ti, by omega, hj3tI, hj3pI⟩
        · obtain ⟨j4, hs4, hinv⟩ := hrec.1 s hs
          exact ⟨j4, hs4, ImgInv_trans_of hinv hj3s hj3ti hj3tI hj3pI⟩
      · obtain ⟨j4, hs4, hinv⟩ := hrec.2
        exact ⟨j4, hs4, ImgInv_trans_of hinv hj3s hj3ti hj3tI hj3pI⟩
    | error e =>
      obtain ⟨j2, hj2, h2s, h2ti, h2pi, h2tI, h2pI⟩ := getJob_addLog_like jobId _ _ j1 hj1
      have hj2s : j2.status = j.status := by rw [h2s, hl1s]
      have hj2ti : j2.totalImages = j.totalImages := by rw [h2ti, hl1ti]
      have hj2tI : j2.totalItems = j.totalItems := by rw [h2tI, hl1tI]
      have hj2pI : j2.processedItems = j.processedItems := by rw [h2pI, hl1pI]
      have hj2pi : j2.processedImages = j.processedImages := by rw [h2pi, hl1pi]
      have hrec := ih (i + 1) acc _ j2 hj2 (by omega) (by omega)
      simp only [imageLoop]
      constructor
      · intro s hs
        simp only [List.mem_cons] at hs
        rcases hs with rfl | hs
        · exact ⟨j1, hj1, hl1s, hl1ti, by omega, hl1tI, hl1pI⟩
        rcases hs with rfl | hs
        · exact ⟨j2, hj2, hj2s, hj2ti, by omega, hj2tI, hj2pI⟩
        · obtain ⟨j4, hs4, hinv⟩ := hrec.1 s hs
          exact ⟨j4, hs4, ImgInv_trans_of hinv hj2s hj2ti hj2tI hj2pI⟩
      · obtain ⟨j4, hs4, hinv⟩ := hrec.2
        exact ⟨j4, hs4, ImgInv_trans_of hinv hj2s hj2ti hj2tI hj2pI⟩

theorem ItemInv_trans_of {j j3 j2 : ProcessingJob} (h : ItemInv j3 j2)
    (hs : j3.status = j.status) (hti : j3.totalImages = j.totalImages)
    (hpi : j3.processedImages = j.processedImages)
    (htI : j3.totalItems = j.totalItems) :
    ItemInv j j2 :=
  ⟨h.1.trans hs, h.2.1.trans hti, h.2.2.1.trans hpi, h.2.2.2.1.trans htI, h.2.2.2.2⟩

theorem itemLoop_walk (jobId : Nat) (sess : String) (mode : Mode)
    (market : String → Option MarketItem) :
    ∀ (pairs : List (String × Int)) (count : Nat) (st : MemStorage) (j : ProcessingJob),
      getProcessingJob jobId st = some j →
      j.processedItems = count →
      count + pairs.length ≤ j.totalItems →
      (∀ s ∈ (itemLoop jobId sess mode market pairs count st).1,
        ∃ j2, getProcessingJob jobId s = some j2 ∧ ItemInv j j2)
      ∧ (∃ j3, getProcessingJob jobId (itemLoop jobId sess mode market pairs count st).2
          = some j3 ∧ ItemInv j j3) := by
  intro pairs
  induction pairs with
  | nil =>
    intro count st j hj hcount hlen
    refine ⟨?_, j, hj, rfl, rfl, rfl, rfl, by omega⟩
    intro s hs
    simp [itemLoop] at hs
  | cons p rest ih =>
    intro count st j hj hcount hlen
    obtain ⟨name, tq⟩ := p
    have hlen2 : count + rest.length + 1 ≤ j.totalItems := by
      simp at hlen
      omega
    have hjok : j.processedItems ≤ j.totalItems := by omega
    cases hfind : findInventoryItemByName sess name st with
    | some ex =>
      cases hup : updateInventoryItemQuantity sess ex.id
          (if mode = Mode.edit then ex.quantity + tq else tq) st with
      | ok st1 =>
        have hjst1 : getProcessingJob jobId st1 = some j := by
          rw [getJob_updateQty jobId sess ex.id _ st st1 hup, hj]
        obtain ⟨j1, hj1, hl1s, hl1ti, hl1pi, hl1tI, hl1pI⟩ :=
          getJob_addLog_like jobId _ st1 j hjst1
        obtain ⟨j2, hj2, h2s, h2ti, h2pi, h2tI, h2pI⟩ :=
          getJob_update_pc jobId (count + 1) _ j1 hj1
        have hj2s : j2.status = j.status := by rw [h2s, hl1s]
        have hj2ti : j2.totalImages = j.totalImages := by rw [h2ti, hl1ti]
        have hj2pi : j2.processedImages = j.processedImages := by rw [h2pi, hl1pi]
        have hj2tI : j2.totalItems = j.totalItems := by rw [h2tI, hl1tI]
        have hrec := ih (count + 1) _ j2 hj2 h2pI (by omega)
        simp only [itemLoop, hfind, hup]
        constructor
        · intro s hs
          simp only [List.mem_cons] at hs
          rcases hs with rfl | hs
          · exact ⟨j, hjst1, rfl, rfl, rfl, rfl, hjok⟩
          rcases hs with rfl | hs
          · exact ⟨j1, hj1, hl1s, hl1ti, hl1pi, hl1tI, by omega⟩
          rcases hs with rfl | hs
          · exact ⟨j2, hj2, hj2s, hj2ti, hj2pi, hj2tI, by omega⟩
          · obtain ⟨j4, hs4, hinv⟩ := hrec.1 s hs
            exact ⟨j4, hs4, ItemInv_trans_of hinv hj2s hj2ti hj2pi hj2tI⟩
        · obtain ⟨j4, hs4, hinv⟩ := hrec.2
          exact ⟨j4, hs4, ItemInv_trans_of hinv hj2s hj2ti hj2pi hj2tI⟩
      | error e =>
        obtain ⟨j1, hj1, hl1s, hl1ti, hl1pi, hl1tI, hl1pI⟩ :=
          getJob_addLog_like jobId _ st j hj
        have hrec := ih count _ j1 hj1 (by omega) (by omega)
        simp only [itemLoop, hfind, hup]
        constructor
        · intro s hs
          simp only [List.mem_cons] at hs
          rcases hs with rfl | hs
          · exact ⟨j1, hj1, hl1s, hl1ti, hl1pi, hl1tI, by omega⟩
          · obtain ⟨j4, hs4, hinv⟩ := hrec.1 s hs
            exact ⟨j4, hs4, ItemInv_trans_of hinv hl1s hl1ti hl1pi hl1tI⟩
        · obtain ⟨j4, hs4, hinv⟩ := hrec.2
          exact ⟨j4, hs4, ItemInv_trans_of hinv hl1s hl1ti hl1pi hl1tI⟩
    | none =>
      cases hmk : market name with
      | some md =>
        have hjc : getProcessingJob jobId (createInventoryItem sess
            { name := name, slug := some md.slug, quantity := some tq,
              sellPrices := md.sellPrices, buyPrices := md.buyPrices,
              avgSell := some md.avgSell, avgBuy := some md.avgBuy,
              marketUrl := some md.marketUrl, category := categoryOf name } st).2 = some j := by
          rw [getJob_createItem, hj]
        obtain ⟨j1, hj1, hl1s, hl1ti, hl1pi, hl1tI, hl1pI⟩ :=
          getJob_addLog_like jobId _ _ j hjc
        obtain ⟨j2, hj2, h2s, h2ti, h2pi, h2tI, h2pI⟩ :=
          getJob_update_pc jobId (count + 1) _ j1 hj1
        have hj2s : j2.status = j.status := by rw [h2s, hl1s]
        have hj2ti : j2.totalImages = j.totalImages := by rw [h2ti, hl1ti]
        have hj2pi : j2.processedImages = j.processedImages := by rw [h2pi, hl1pi]
        have hj2tI : j2.totalItems = j.totalItems := by rw [h2tI, hl1tI]
        have hrec := ih (count + 1) _ j2 hj2 h2pI (by omega)
        simp only [itemLoop, hfind, hmk]
        constructor
        · intro s hs
          simp only [List.mem_cons] at hs
          rcases hs with rfl | hs
          · exact ⟨j, hjc, rfl, rfl, rfl, rfl, hjok⟩
          rcases hs with rfl | hs
          · exact ⟨j1, hj1, hl1s, hl1ti, hl1pi, hl1tI, by omega⟩
          rcases hs with rfl | hs
          · exact ⟨j2, hj2, hj2s, hj2ti, hj2pi, hj2tI, by omega⟩
          · obtain ⟨j4, hs4, hinv⟩ := hrec.1 s hs
            exact ⟨j4, hs4, ItemInv_trans_of hinv hj2s hj2ti hj2pi hj2tI⟩
        · obtain ⟨j4, hs4, hinv⟩ := hrec.2
          exact ⟨j4, hs4, ItemInv_trans_of hinv hj2s hj2ti hj2pi hj2tI⟩
      | none =>
        have hjc : getProcessingJob jobId (createInventoryItem sess
            { name := name, slug := none, quantity := some tq,
              sellPrices := [], buyPrices := [],
              avgSell := some 0, avgBuy := some 0,
              marketUrl := none, category := "Unknown" } st).2 = some j := by
          rw [getJob_createItem, hj]
        obtain ⟨j1, hj1, hl1s, hl1ti, hl1pi, hl1tI, hl1pI⟩ :=
          getJob_addLog_like jobId _ _ j hjc
        obtain ⟨j2, hj2, h2s, h2ti, h2pi, h2tI, h2pI⟩ :=
          getJob_update_pc jobId (count + 1) _ j1 hj1
        have hj2s : j2.status = j.status := by rw [h2s, hl1s]
        have hj2ti : j2.totalImages = j.totalImages := by rw [h2ti, hl1ti]
        have hj2pi : j2.processedImages = j.processedImages := by rw [h2pi, hl1pi]
        have hj2tI : j2.totalItems = j.totalItems := by rw [h2tI, hl1tI]
        have hrec := ih (count + 1) _ j2 hj2 h2pI (by omega)
        simp only [itemLoop, hfind, hmk]
        constructor
        · intro s hs
          simp only [List.mem_cons] at hs
          rcases hs with rfl | hs
          · exact ⟨j, hjc, rfl, rfl, rfl, rfl, hjok⟩
          rcases hs with rfl | hs
          · exact ⟨j1, hj1, hl1s, hl1ti, hl1pi, hl1tI, by omega⟩
          rcases hs with rfl | hs
          · exact ⟨j2, hj2, hj2s, hj2ti, hj2pi, hj2tI, by omega⟩
          · obtain ⟨j4, hs4, hinv⟩ := hrec.1 s hs
            exact ⟨j4, hs4, ItemInv_trans_of hinv hj2s hj2ti hj2pi hj2tI⟩
        · obtain ⟨j4, hs4, hinv⟩ := hrec.2
          exact ⟨j4, hs4, ItemInv_trans_of hinv hj2s hj2ti hj2pi hj2tI⟩

theorem processImagesAsync_trace (jobId : Nat) (sess : String)
    (vision : List (Except String (List (String × Int))))
    (market : String → Option MarketItem) (mode : Mode) (st : MemStorage) :
    (processImagesAsync jobId sess vision market mode st).1
      = stStart jobId st :: (imgOf jobId vision st).2.1
        ++ stItems jobId vision st :: stMsg jobId vision st
        :: (itmOf jobId sess mode market vision st).1
        ++ [stDone jobId sess mode market vision st,
            stFinal jobId sess mode market vision st] := rfl

theorem replicate_splice {α : Type} (a b : α) (n1 n2 : Nat) :
    a :: List.replicate n1 a ++ a :: a :: List.replicate n2 a ++ [b, b]
      = List.replicate (n1 + n2 + 3) a ++ [b, b] := by
  have h3 : n1 + n2 + 3 = (n1 + 1) + (n2 + 2) := by omega
  rw [h3, List.replicate_add]
  simp [List.replicate_succ, List.append_assoc]

theorem trace_assembly (jobId : Nat) (stat : JobStatus)
    (st1 : MemStorage) (imgTr : List MemStorage) (st3 st4 : MemStorage)
    (itmTr : List MemStorage) (st6 st7 : MemStorage)
    (h1 : statusAt jobId st1 = some stat ∧ CountersOK jobId st1)
    (himg : ∀ s ∈ imgTr, statusAt jobId s = some stat ∧ CountersOK jobId s)
    (h3 : statusAt jobId st3 = some stat ∧ CountersOK jobId st3)
    (h4 : statusAt jobId st4 = some stat ∧ CountersOK jobId st4)
    (hitm : ∀ s ∈ itmTr, statusAt jobId s = some stat ∧ CountersOK jobId s)
    (h6 : statusAt jobId st6 = some JobStatus.completed ∧ CountersOK jobId st6)
    (h7 : statusAt jobId st7 = some JobStatus.completed ∧ CountersOK jobId st7) :
    (∀ s ∈ st1 :: imgTr ++ st3 :: st4 :: itmTr ++ [st6, st7], CountersOK jobId s)
    ∧ ((st1 :: imgTr ++ st3 :: st4 :: itmTr ++ [st6, st7]).map (statusAt jobId)
        = List.replicate (imgTr.length + itmTr.length + 3) (some stat)
          ++ [some JobStatus.completed, some JobStatus.completed]) := by
  constructor
  · intro s hs
    rcases List.mem_append.mp hs with hs1 | hs2
    · rcases List.mem_append.mp hs1 with hsa | hsb
      · rcases List.mem_cons.mp hsa with rfl | h
        · exact h1.2
        · exact (himg s h).2
      · rcases List.mem_cons.mp hsb with rfl | h
        · exact h3.2
        rcases List.mem_cons.mp h with rfl | h2
        · exact h4.2
        · exact (hitm s h2).2
    · rcases List.mem_cons.mp hs2 with rfl | h
      · exact h6.2
      rcases List.mem_cons.mp h with rfl | h2
      · exact h7.2
      · cases h2
  · simp only [List.map_cons, List.map_append, List.map_cons, List.map_cons, List.map_nil]
    rw [h1.1, h3.1, h4.1, h6.1, h7.1]
    have himg2 : imgTr.map (statusAt jobId) = List.replicate imgTr.length (some stat) := by
      rw [show imgTr.length = (imgTr.map (statusAt jobId)).length by simp]
      apply List.eq_replicate_of_mem
      intro b hb
      obtain ⟨s, hsmem, rfl⟩ := List.mem_map.mp hb
      exact (himg s hsmem).1
    have hitm2 : itmTr.map (statusAt jobId) = List.replicate itmTr.length (some stat) := by
      rw [show itmTr.length = (itmTr.map (statusAt jobId)).length by simp]
      apply List.eq_replicate_of_mem
      intro b hb
      obtain ⟨s, hsmem, rfl⟩ := List.mem_map.mp hb
      exact (hitm s hsmem).1
    rw [himg2, hitm2]
    exact replicate_splice (some stat) (some JobStatus.completed) imgTr.length itmTr.length

theorem statusAt_of (jobId : Nat) (s : MemStorage) (j2 : ProcessingJob)
    (h : getProcessingJob jobId s = some j2) : statusAt jobId s = some j2.status := by
  simp [statusAt, h]

theorem countersOK_of (jobId : Nat) (s : MemStorage) (j2 : ProcessingJob)
    (h : getProcessingJob jobId s = some j2)
    (h1 : j2.processedImages ≤ j2.totalImages)
    (h2 : j2.processedItems ≤ j2.totalItems) : CountersOK jobId s := by
  intro j3 h3
  rw [h] at h3
  injection h3 with he
  subst he
  exact ⟨h1, h2⟩

theorem processImages_walk (jobId : Nat) (sess : String)
    (vision : List (Except String (List (String × Int))))
    (market : String → Option MarketItem) (mode : Mode) (st : MemStorage)
    (j : ProcessingJob) (hj : getProcessingJob jobId st = some j)
    (hlen : vision.length ≤ j.totalImages)
    (hpi : j.processedImages ≤ j.totalImages)
    (hpI : j.processedItems ≤ j.totalItems) :
    (∀ s ∈ (processImagesAsync jobId sess vision market mode st).1, CountersOK jobId s)
    ∧ (processImagesAsync jobId sess vision market mode st).1.map (statusAt jobId)
      = List.replicate ((imgOf jobId vision st).2.1.length
            + (itmOf jobId sess mode market vision st).1.length + 3) (some j.status)
        ++ [some JobStatus.completed, some JobStatus.completed] := by
  obtain ⟨j1, hj1, hl1s, hl1ti, hl1pi, hl1tI, hl1pI⟩ :=
    getJob_addLog_like jobId "Starting image analysis..." st j hj
  have hj1' : getProcessingJob jobId (stStart jobId st) = some j1 := hj1
  have h1 : statusAt jobId (stStart jobId st) = some j.status
      ∧ CountersOK jobId (stStart jobId st) := by
    refine ⟨?_, countersOK_of jobId _ j1 hj1' (by omega) (by omega)⟩
    rw [statusAt_of jobId (stStart jobId st) j1 hj1', hl1s]
  have hwalkI := imageLoop_walk jobId vision.length vision 0 [] (stStart jobId st) j1 hj1'
    (by omega) (by omega)
  have himg : ∀ s ∈ (imgOf jobId vision st).2.1,
      statusAt jobId s = some j.status ∧ CountersOK jobId s := by
    intro s hs
    obtain ⟨j2, hj2, h2s, h2ti, h2pi, h2tI, h2pI⟩ := hwalkI.1 s hs
    refine ⟨?_, countersOK_of jobId s j2 hj2 h2pi (by omega)⟩
    rw [statusAt_of jobId s j2 hj2, h2s, hl1s]
  obtain ⟨jB, hjB, hBs, hBti, hBpi, hBtI, hBpI⟩ := hwalkI.2
  have hjB' : getProcessingJob jobId (imgOf jobId vision st).2.2 = some jB := hjB
  obtain ⟨j3, hj3, h3s, h3ti, h3pi, h3tI, h3pI⟩ :=
    getJob_update_items jobId (countsOf jobId vision st).length
      (imgOf jobId vision st).2.2 jB hjB'
  have hj3' : getProcessingJob jobId (stItems jobId vision st) = some j3 := hj3
  have hj3s : j3.status = j.status := by rw [h3s, hBs, hl1s]
  have h3f : statusAt jobId (stItems jobId vision st) = some j.status
      ∧ CountersOK jobId (stItems jobId vision st) := by
    refine ⟨?_, countersOK_of jobId _ j3 hj3' (by omega) (by omega)⟩
    rw [statusAt_of jobId (stItems jobId vision st) j3 hj3', hj3s]
  obtain ⟨j4, hj4, hl4s, hl4ti, hl4pi, hl4tI, hl4pI⟩ :=
    getJob_addLog_like jobId
      ("Processing " ++ toString (countsOf jobId vision st).length ++ " unique items...")
      (stItems jobId vision st) j3 hj3'
  have hj4' : getProcessingJob jobId (stMsg jobId vision st) = some j4 := hj4
  have hj4s : j4.status = j.status := by rw [hl4s, hj3s]
  have h4f : statusAt jobId (stMsg jobId vision st) = some j.status
      ∧ CountersOK jobId (stMsg jobId vision st) := by
    refine ⟨?_, countersOK_of jobId _ j4 hj4' (by omega) (by omega)⟩
    rw [statusAt_of jobId (stMsg jobId vision st) j4 hj4', hj4s]
  have hwalkT := itemLoop_walk jobId sess mode market (countsOf jobId vision st) 0
    (stMsg jobId vision st) j4 hj4' (by omega) (by omega)
  have hitm : ∀ s ∈ (itmOf jobId sess mode market vision st).1,
      statusAt jobId s = some j.status ∧ CountersOK jobId s := by
    intro s hs
    obtain ⟨j5, hj5, h5s, h5ti, h5pi, h5tI, h5pI⟩ := hwalkT.1 s hs
    refine ⟨?_, countersOK_of jobId s j5 hj5 (by omega) h5pI⟩
    rw [statusAt_of jobId s j5 hj5, h5s, hj4s]
  obtain ⟨j5, hj5, h5s, h5ti, h5pi, h5tI, h5pI⟩ := hwalkT.2
  have hj5' : getProcessingJob jobId (itmOf jobId sess mode market vision st).2 = some j5 :=
    hj5
  obtain ⟨j6, hj6, h6s, h6ti, h6pi, h6tI, h6pI⟩ :=
    getJob_update_status jobId JobStatus.completed
      (itmOf jobId sess mode market vision st).2 j5 hj5'
  have hj6' : getProcessingJob jobId (stDone jobId sess mode market vision st) = some j6 :=
    hj6
  have h6f : statusAt jobId (stDone jobId sess mode market vision st)
        = some JobStatus.completed
      ∧ CountersOK jobId (stDone jobId sess mode market vision st) := by
    refine ⟨?_, countersOK_of jobId _ j6 hj6' (by omega) (by omega)⟩
    rw [statusAt_of jobId (stDone jobId sess mode market vision st) j6 hj6', h6s]
  obtain ⟨j7, hj7, hl7s, hl7ti, hl7pi, hl7tI, hl7pI⟩ :=
    getJob_addLog_like jobId "Processing completed successfully!"
      (stDone jobId sess mode market vision st) j6 hj6'
  have hj7' : getProcessingJob jobId (stFinal jobId sess mode market vision st) = some j7 :=
    hj7
  have h7f : statusAt jobId (stFinal jobId sess mode market vision st)
        = some JobStatus.completed
      ∧ CountersOK jobId (stFinal jobId sess mode market vision st) := by
    refine ⟨?_, countersOK_of jobId _ j7 hj7' (by omega) (by omega)⟩
    rw [statusAt_of jobId (stFinal jobId sess mode market vision st) j7 hj7', hl7s, h6s]
  have hasm := trace_assembly jobId j.status (stStart jobId st) (imgOf jobId vision st).2.1
    (stItems jobId vision st) (stMsg jobId vision st)
    (itmOf jobId sess mode market vision st).1
    (stDone jobId sess mode market vision st) (stFinal jobId sess mode market vision st)
    h1 himg h3f h4f hitm h6f h7f
  rw [processImagesAsync_trace]
  exact hasm

theorem terminal_absorb {α : Type} (p c : α) (hne : c ≠ p) (K : Nat)
    (L : List α) (hL : L = List.replicate K p ++ [c, c]) :
    ∀ a b : Nat, a ≤ b → b < L.length → L[a]? = some c → L[b]? = some c := by
  subst hL
  intro a b hab hb ha
  have hK : K ≤ a := by
    by_contra hcon
    push_neg at hcon
    rw [List.getElem?_append] at ha
    rw [if_pos (by simpa using hcon)] at ha
    rw [List.getElem?_replicate, if_pos hcon] at ha
    exact hne (Option.some.inj ha).symm
  have hb2 : b < K + 2 := by simpa using hb
  have hK2 : ¬ b < (List.replicate K p).length := by
    simp only [List.length_replicate]
    omega
  rw [List.getElem?_append, if_neg hK2]
  simp only [List.length_replicate]
  have hd : b - K = 0 ∨ b - K = 1 := by omega
  rcases hd with hd | hd <;> rw [hd] <;> rfl

/-- C5: in every state a poller could observe during a run started by an
image-submission route (the state right after the job is created and
every intermediate state of `processImagesAsync`), the job's
`processedImages` is at most `totalImages` and `processedItems` is at
most `totalItems`. -/
theorem claim_C5 (sess : String) (vision : List (Except String (List (String × Int))))
    (market : String → Option MarketItem) (mode : Mode) (st : MemStorage)
    (hfresh : JobIdsFresh st) :
    ∀ s ∈ (submitImagesRoute sess vision market mode st).2.1,
      CountersOK (submitImagesRoute sess vision market mode st).1 s := by
  intro s hs
  have hjc := getJob_create_fresh (routeInsertJob vision) st hfresh
  have hwalk := processImages_walk (createProcessingJob (routeInsertJob vision) st).1.id sess
    vision market mode (createProcessingJob (routeInsertJob vision) st).2
    (createProcessingJob (routeInsertJob vision) st).1 hjc Nat.le.refl (Nat.zero_le _)
    Nat.le.refl
  have hs' : s ∈ (createProcessingJob (routeInsertJob vision) st).2
      :: (processImagesAsync (createProcessingJob (routeInsertJob vision) st).1.id sess vision
          market mode (createProcessingJob (routeInsertJob vision) st).2).1 := hs
  rcases List.mem_cons.mp hs' with rfl | hs2
  · exact countersOK_of _ _ _ hjc (Nat.zero_le _) Nat.le.refl
  · exact hwalk.1 s hs2

/-- C5 (witness): a concrete run over the empty store with one
recognized image. -/
theorem claim_C5_witness :
    JobIdsFresh emptyStorage
    ∧ ∀ s ∈ (submitImagesRoute "s" [Except.ok [("x", 1)]] (fun _ => none) Mode.online
        emptyStorage).2.1,
      CountersOK (submitImagesRoute "s" [Except.ok [("x", 1)]] (fun _ => none) Mode.online
        emptyStorage).1 s :=
  ⟨fun j hj => absurd hj (by simp [emptyStorage]),
   claim_C5 "s" [Except.ok [("x", 1)]] (fun _ => none) Mode.online emptyStorage
    (fun j hj => absurd hj (by simp [emptyStorage]))⟩

/-- C6 (counterexample): the job tracker itself has no terminal-state
guard: `updateProcessingJob` merges any patch unconditionally, so after
a job has been observed `completed`, a further update makes a later poll
observe `processing` again. -/
theorem claim_C6_counterexample :
    statusAt 0 (updateProcessingJob 0 { status := some JobStatus.completed }
        (createProcessingJob { status := some JobStatus.processing } emptyStorage).2)
      = some JobStatus.completed
    ∧ statusAt 0 (updateProcessingJob 0 { status := some JobStatus.processing }
        (updateProcessingJob 0 { status := some JobStatus.completed }
          (createProcessingJob { status := some JobStatus.processing } emptyStorage).2))
      = some JobStatus.processing := by decide

/-- C6 (amended): in the runs the pipeline itself drives, the observed
status sequence is forward-only: every poll of the route's trace shows
`processing` until the last two states, which show `completed`, so once
`completed` is observed every later observation in the run is still
`completed`.  (The tracker alone does not enforce this: see the
counterexample.) -/
theorem claim_C6_amended (sess : String)
    (vision : List (Except String (List (String × Int))))
    (market : String → Option MarketItem) (mode : Mode) (st : MemStorage)
    (hfresh : JobIdsFresh st) :
    ∃ K,
      ((submitImagesRoute sess vision market mode st).2.1).map
          (statusAt (submitImagesRoute sess vision market mode st).1)
        = List.replicate K (some JobStatus.processing)
          ++ [some JobStatus.completed, some JobStatus.completed]
      ∧ ∀ a b : Nat, a ≤ b →
          b < (((submitImagesRoute sess vision market mode st).2.1).map
              (statusAt (submitImagesRoute sess vision market mode st).1)).length →
          (((submitImagesRoute sess vision market mode st).2.1).map
              (statusAt (submitImagesRoute sess vision market mode st).1))[a]?
            = some (some JobStatus.completed) →
          (((submitImagesRoute sess vision market mode st).2.1).map
              (statusAt (submitImagesRoute sess vision market mode st).1))[b]?
            = some (some JobStatus.completed) := by
  have hjc := getJob_create_fresh (routeInsertJob vision) st hfresh
  have hwalk := processImages_walk (createProcessingJob (routeInsertJob vision) st).1.id sess
    vision market mode (createProcessingJob (routeInsertJob vision) st).2
    (createProcessingJob (routeInsertJob vision) st).1 hjc Nat.le.refl (Nat.zero_le _)
    Nat.le.refl
  have hmap : ((submitImagesRoute sess vision market mode st).2.1).map
      (statusAt (submitImagesRoute sess vision market mode st).1)
    = statusAt (createProcessingJob (routeInsertJob vision) st).1.id
        (createProcessingJob (routeInsertJob vision) st).2
      :: ((processImagesAsync (createProcessingJob (routeInsertJob vision) st).1.id sess
          vision market mode (createProcessingJob (routeInsertJob vision) st).2).1).map
        (statusAt (createProcessingJob (routeInsertJob vision) st).1.id) := rfl
  have hst0 : statusAt (createProcessingJob (routeInsertJob vision) st).1.id
      (createProcessingJob (routeInsertJob vision) st).2 = some JobStatus.processing := by
    rw [statusAt_of _ _ _ hjc]
    rfl
  have heq : ((submitImagesRoute sess vision market mode st).2.1).map
      (statusAt (submitImagesRoute sess vision market mode st).1)
    = List.replicate
        ((imgOf (createProcessingJob (routeInsertJob vision) st).1.id vision
            (createProcessingJob (routeInsertJob vision) st).2).2.1.length
          + (itmOf (createProcessingJob (routeInsertJob vision) st).1.id sess mode market
              vision (createProcessingJob (routeInsertJob vision) st).2).1.length + 3 + 1)
        (some JobStatus.processing)
      ++ [some JobStatus.completed, some JobStatus.completed] := by
    rw [hmap, hst0, hwalk.2,
      show (createProcessingJob (routeInsertJob vision) st).1.status = JobStatus.processing
        from rfl]
    rfl
  exact ⟨_, heq, fun a b hab hb ha =>
    terminal_absorb (some JobStatus.processing) (some JobStatus.completed) (by decide)
      _ _ heq a b hab hb ha⟩

/-- C6 (witness): a concrete route run over the empty store; the
observed statuses are `processing` up to the last two polls, which are
`completed` and stay `completed`. -/
theorem claim_C6_witness :
    JobIdsFresh emptyStorage
    ∧ ∃ K,
      ((submitImagesRoute "s" [Except.ok [("y", 2)]] (fun _ => none) Mode.oneshot
            emptyStorage).2.1).map
          (statusAt (submitImagesRoute "s" [Except.ok [("y", 2)]] (fun _ => none) Mode.oneshot
            emptyStorage).1)
        = List.replicate K (some JobStatus.processing)
          ++ [some JobStatus.completed, some JobStatus.completed]
      ∧ ∀ a b : Nat, a ≤ b →
          b < (((submitImagesRoute "s" [Except.ok [("y", 2)]] (fun _ => none) Mode.oneshot
              emptyStorage).2.1).map
              (statusAt (submitImagesRoute "s" [Except.ok [("y", 2)]] (fun _ => none)
                Mode.oneshot emptyStorage).1)).length →
          (((submitImagesRoute "s" [Except.ok [("y", 2)]] (fun _ => none) Mode.oneshot
              emptyStorage).2.1).map
              (statusAt (submitImagesRoute "s" [Except.ok [("y", 2)]] (fun _ => none)
                Mode.oneshot emptyStorage).1))[a]?
            = some (some JobStatus.completed) →
          (((submitImagesRoute "s" [Except.ok [("y", 2)]] (fun _ => none) Mode.oneshot
              emptyStorage).2.1).map
              (statusAt (submitImagesRoute "s" [Except.ok [("y", 2)]] (fun _ => none)
                Mode.oneshot emptyStorage).1))[b]?
            = some (some JobStatus.completed) :=
  ⟨fun j hj => absurd hj (by simp [emptyStorage]),
   claim_C6_amended "s" [Except.ok [("y", 2)]] (fun _ => none) Mode.oneshot emptyStorage
    (fun j hj => absurd hj (by simp [emptyStorage]))⟩
